import Mathlib

/-!
Verification of the congestion-control core of kalelpida/quic-go.

The Go sources under `src/internal/congestion` (`cubic_sender.go`,
`hybrid_slow_start_pp.go`) and `src/unnamed/part_000` (package `utils`,
algorithm selection) are embedded shallowly below:

* Go `protocol.ByteCount` (an `int64` holding nonnegative byte counts) is
  embedded as `Nat`; `protocol.PacketNumber` (an `int64` with the sentinel
  `InvalidPacketNumber = -1`) as `Int`; `time.Duration` (an `int64` count of
  nanoseconds) as `Int`.
* Go `float64` arithmetic is embedded exactly: a float value is the rational
  it denotes, and every arithmetic step is followed by `fl`, correct rounding
  to 53 significant bits (round to nearest, ties to even).  The inputs the
  claims exercise stay far away from overflow and subnormals, so those IEEE
  edge cases do not arise.
* Methods become state-passing functions; methods that report congestion
  states to the tracer additionally return the list of emitted states.

Rational arithmetic inside executable definitions goes through `qmul`,
`qadd`, `qsub`, `qinv`, `qdiv`, `qabs` and `pow2`, thin `mkRat` wrappers
that the kernel evaluates directly; the bridge lemmas right after them
identify each wrapper with the corresponding field operation on `ℚ`.
-/

set_option maxRecDepth 8000

namespace QuicGo

/-! ### Kernel-evaluable rational arithmetic -/

/-- Multiplication on `ℚ`, kernel-evaluable. -/
def qmul (a b : ℚ) : ℚ := mkRat (a.num * b.num) (a.den * b.den)

/-- Addition on `ℚ`, kernel-evaluable. -/
def qadd (a b : ℚ) : ℚ := mkRat (a.num * (b.den : ℤ) + b.num * (a.den : ℤ)) (a.den * b.den)

/-- Subtraction on `ℚ`, kernel-evaluable. -/
def qsub (a b : ℚ) : ℚ := qadd a (-b)

/-- Inverse on `ℚ` (with `qinv 0 = 0`), kernel-evaluable. -/
def qinv (b : ℚ) : ℚ :=
  if b.num < 0 then mkRat (-(b.den : ℤ)) b.num.natAbs else mkRat (b.den : ℤ) b.num.natAbs

/-- Division on `ℚ` (with `qdiv a 0 = 0`), kernel-evaluable. -/
def qdiv (a b : ℚ) : ℚ := qmul a (qinv b)

/-- Absolute value on `ℚ`, kernel-evaluable. -/
def qabs (q : ℚ) : ℚ := mkRat (q.num.natAbs : ℤ) q.den

/-- The power `(2 : ℚ) ^ (e : ℤ)`, kernel-evaluable. -/
def pow2 (e : ℤ) : ℚ :=
  match e with
  | Int.ofNat n => mkRat ((2 ^ n : ℕ) : ℤ) 1
  | Int.negSucc n => mkRat 1 (2 ^ (n + 1))

theorem mkRat_div (n : ℤ) (d : ℕ) : mkRat n d = (n : ℚ) / (d : ℚ) := by
  rw [Rat.mkRat_eq_divInt, Rat.divInt_eq_div]
  norm_num

theorem num_div_den (a : ℚ) : (a.num : ℚ) / (a.den : ℚ) = a := Rat.num_div_den a

theorem qmul_eq (a b : ℚ) : qmul a b = a * b := by
  rw [qmul, mkRat_div]
  push_cast
  conv_rhs => rw [← num_div_den a, ← num_div_den b]
  rw [div_mul_div_comm]

theorem qadd_eq (a b : ℚ) : qadd a b = a + b := by
  have hb : (b.den : ℚ) ≠ 0 := by exact_mod_cast b.den_nz
  have ha : (a.den : ℚ) ≠ 0 := by exact_mod_cast a.den_nz
  rw [qadd, mkRat_div]
  push_cast
  conv_rhs => rw [← num_div_den a, ← num_div_den b]
  rw [div_add_div _ _ ha hb]
  ring_nf

theorem qsub_eq (a b : ℚ) : qsub a b = a - b := by
  rw [qsub, qadd_eq, sub_eq_add_neg]

theorem qinv_eq (b : ℚ) : qinv b = b⁻¹ := by
  rcases lt_trichotomy b.num 0 with h | h | h
  · rw [qinv, if_pos h, mkRat_div]
    push_cast [Int.cast_natAbs]
    rw [abs_of_neg (show (b.num : ℚ) < 0 by exact_mod_cast h)]
    conv_rhs => rw [← num_div_den b]
    rw [inv_div, neg_div_neg_eq]
  · have hb : b = 0 := Rat.zero_iff_num_zero.mpr h
    simp [qinv, hb]
  · rw [qinv, if_neg (by omega), mkRat_div]
    push_cast [Int.cast_natAbs]
    rw [abs_of_pos (show (0 : ℚ) < b.num by exact_mod_cast h)]
    conv_rhs => rw [← num_div_den b]
    rw [inv_div]

theorem qdiv_eq (a b : ℚ) : qdiv a b = a / b := by
  rw [qdiv, qmul_eq, qinv_eq, div_eq_mul_inv]

theorem qabs_eq (q : ℚ) : qabs q = |q| := by
  rw [qabs, mkRat_div]
  push_cast [Int.cast_natAbs]
  conv_rhs => rw [← num_div_den q]
  rw [abs_div, abs_of_pos (show (0 : ℚ) < q.den by exact_mod_cast q.pos)]

theorem pow2_eq (e : ℤ) : pow2 e = (2 : ℚ) ^ e := by
  rcases e with n | n
  · rw [pow2, mkRat_div]
    push_cast
    rw [div_one, Int.ofNat_eq_natCast, zpow_natCast]
  · rw [pow2, mkRat_div, zpow_negSucc]
    push_cast
    rw [one_div]

theorem pow2_pos (e : ℤ) : 0 < pow2 e := by
  rw [pow2_eq]; positivity

/-! ### Exact model of Go `float64` arithmetic

`fl q` is the IEEE-754 binary64 value nearest to the rational `q` (ties to
even), represented as the exact rational it denotes.  Exponents are found by
fuel-bounded binary scaling so that everything reduces inside the kernel.
-/

/-- Round a rational to the nearest integer, ties to even
(the rounding used inside IEEE-754 operations). -/
def rne (x : ℚ) : ℤ :=
  let f := ⌊x⌋
  let r := qsub x (f : ℚ)
  if r < mkRat 1 2 then f
  else if mkRat 1 2 < r then f + 1
  else if 2 ∣ f then f else f + 1

/-- Fuel-bounded ⌊log₂ q⌋ for `1 ≤ q`.  Written with a bare `Nat.rec` so
that kernel evaluation is lazy in the fuel. -/
def log2Q (fuel : ℕ) (q : ℚ) : ℕ :=
  Nat.rec (motive := fun _ => ℚ → ℕ) (fun _ => 0)
    (fun _ ih q => if q < 2 then 0 else ih (qmul q (mkRat 1 2)) + 1) fuel q

theorem log2Q_zero (q : ℚ) : log2Q 0 q = 0 := rfl

theorem log2Q_succ (fuel : ℕ) (q : ℚ) :
    log2Q (fuel + 1) q = if q < 2 then 0 else log2Q fuel (qmul q (mkRat 1 2)) + 1 := rfl

/-- Fuel-bounded ⌈log₂ r⌉ for `1 < r`. -/
def clog2Q (fuel : ℕ) (r : ℚ) : ℕ :=
  Nat.rec (motive := fun _ => ℚ → ℕ) (fun _ => 0)
    (fun _ ih r => if r ≤ 1 then 0 else ih (qmul r (mkRat 1 2)) + 1) fuel r

theorem clog2Q_zero (r : ℚ) : clog2Q 0 r = 0 := rfl

theorem clog2Q_succ (fuel : ℕ) (r : ℚ) :
    clog2Q (fuel + 1) r = if r ≤ 1 then 0 else clog2Q fuel (qmul r (mkRat 1 2)) + 1 := rfl

/-- Fuel covering every binary64 exponent (|e| ≤ 1074 ≪ 1100). -/
def flFuel : ℕ := 1100

/-- ⌊log₂ |q|⌋ for a nonzero rational in the binary64 range. -/
def qlog2 (q : ℚ) : ℤ :=
  if 1 ≤ qabs q then (log2Q flFuel (qabs q) : ℤ) else -(clog2Q flFuel (qinv (qabs q)) : ℤ)

/-- Correct rounding of a rational to binary64 (53 significant bits,
round to nearest, ties to even).  Models every Go `float64` result. -/
def fl (q : ℚ) : ℚ :=
  if q = 0 then 0
  else qmul (rne (qmul q (pow2 (-(qlog2 q - 52)))) : ℚ) (pow2 (qlog2 q - 52))

/-- Go conversion `protocol.ByteCount(f)` for a `float64` `f`: truncation
toward zero; our values are nonnegative, where truncation is `⌊·⌋`. -/
def truncF (q : ℚ) : ℕ := (⌊q⌋).toNat

/-- The Go constant `renoBeta = 0.7` as the `float64` it becomes. -/
def renoBetaF : ℚ := fl (mkRat 7 10)

example : renoBetaF = mkRat 3152519739159347 4503599627370496 := by decide
example : truncF (fl (qmul (fl 40000) renoBetaF)) = 28000 := by decide
example : truncF (fl (qmul (fl 22400) renoBetaF)) = 15679 := by decide
example : truncF (fl (qmul (fl 32000) renoBetaF)) = 22400 := by decide

/-! ### Bounds on the rounding error of `fl` -/

theorem rne_le (x : ℚ) : (rne x : ℚ) ≤ x + 1/2 := by
  rw [rne]
  have hfl : (⌊x⌋ : ℚ) ≤ x := Int.floor_le x
  have h2 : mkRat 1 2 = (1/2 : ℚ) := by rw [mkRat_div]; norm_num
  simp only [qsub_eq, h2]
  split
  · linarith
  · rename_i h1
    split
    · rename_i h2'
      push_cast
      linarith
    · split <;> · push_cast; linarith [not_lt.mp h1]

theorem rne_ge (x : ℚ) : x - 1/2 ≤ (rne x : ℚ) := by
  rw [rne]
  have hfl : x < (⌊x⌋ : ℚ) + 1 := Int.lt_floor_add_one x
  have h2 : mkRat 1 2 = (1/2 : ℚ) := by rw [mkRat_div]; norm_num
  simp only [qsub_eq, h2]
  split
  · rename_i h1
    linarith
  · split
    · push_cast; linarith
    · split <;> · push_cast; linarith

theorem log2Q_spec (fuel : ℕ) (q : ℚ) (h1 : 1 ≤ q) (hf : q < 2 ^ fuel) :
    (2:ℚ) ^ (log2Q fuel q) ≤ q ∧ q < 2 ^ (log2Q fuel q + 1) := by
  induction fuel generalizing q with
  | zero =>
    exfalso
    rw [pow_zero] at hf
    linarith
  | succ n ih =>
    rw [log2Q_succ]
    split
    · rename_i hq2
      constructor
      · simpa using h1
      · rw [pow_one]
        exact hq2
    · rename_i hq2
      push_neg at hq2
      have hhalf : qmul q (mkRat 1 2) = q / 2 := by
        rw [qmul_eq, show (mkRat 1 2 : ℚ) = 1/2 by rw [mkRat_div]; norm_num]
        ring
      have h1' : 1 ≤ q / 2 := by linarith
      have hf' : q / 2 < 2 ^ n := by
        rw [pow_succ] at hf
        linarith
      obtain ⟨ha, hb⟩ := ih (q / 2) h1' hf'
      rw [hhalf]
      constructor
      · rw [pow_succ]
        calc (2:ℚ) ^ log2Q n (q/2) * 2 ≤ (q / 2) * 2 := by linarith
        _ = q := by ring
      · have : q / 2 < 2 ^ (log2Q n (q/2) + 1) := hb
        calc q = (q / 2) * 2 := by ring
        _ < 2 ^ (log2Q n (q/2) + 1) * 2 := by linarith
        _ = 2 ^ (log2Q n (q/2) + 1 + 1) := by rw [pow_succ, pow_succ, pow_succ]

theorem clog2Q_spec (fuel : ℕ) (r : ℚ) (h1 : 1 < r) (hf : r ≤ 2 ^ fuel) :
    r ≤ (2:ℚ) ^ (clog2Q fuel r) ∧ (2:ℚ) ^ (clog2Q fuel r) < 2 * r := by
  induction fuel generalizing r with
  | zero =>
    exfalso
    rw [pow_zero] at hf
    linarith
  | succ n ih =>
    rw [clog2Q_succ]
    split
    · rename_i hr1
      exfalso
      exact absurd hr1 (not_le.mpr h1)
    · rename_i hr1
      push_neg at hr1
      have hhalf : qmul r (mkRat 1 2) = r / 2 := by
        rw [qmul_eq, show (mkRat 1 2 : ℚ) = 1/2 by rw [mkRat_div]; norm_num]
        ring
      rw [hhalf]
      by_cases hr2 : r / 2 ≤ 1
      · have hc : clog2Q n (r / 2) = 0 := by
          cases n with
          | zero => rw [clog2Q_zero]
          | succ m => rw [clog2Q_succ, if_pos hr2]
        rw [hc]
        constructor
        · rw [pow_one]
          linarith
        · rw [pow_one]
          linarith
      · push_neg at hr2
        have hf' : r / 2 ≤ 2 ^ n := by
          rw [pow_succ] at hf
          linarith
        obtain ⟨ha, hb⟩ := ih (r / 2) hr2 hf'
        constructor
        · rw [pow_succ]
          linarith
        · rw [pow_succ]
          linarith

theorem qlog2_spec (q : ℚ) (hlo : pow2 (-1074) ≤ q) (hhi : q < pow2 1074) :
    (2:ℚ) ^ (qlog2 q) ≤ q ∧ q < (2:ℚ) ^ (qlog2 q + 1) := by
  have hq0 : 0 < q := lt_of_lt_of_le (pow2_pos _) hlo
  have habs : qabs q = q := by rw [qabs_eq, abs_of_pos hq0]
  rw [qlog2, habs]
  split
  · rename_i h1
    have hf : q < 2 ^ flFuel := by
      calc q < pow2 1074 := hhi
      _ ≤ 2 ^ flFuel := by
          rw [pow2_eq]
          rw [show ((1074:ℤ)) = ((1074:ℕ) : ℤ) by norm_num, zpow_natCast]
          exact pow_le_pow_right₀ (by norm_num) (by norm_num [flFuel])
    obtain ⟨ha, hb⟩ := log2Q_spec flFuel q h1 hf
    constructor
    · rw [zpow_natCast]
      exact ha
    · rw [show ((log2Q flFuel q : ℤ) + 1) = ((log2Q flFuel q + 1 : ℕ) : ℤ) by push_cast; ring,
        zpow_natCast]
      exact hb
  · rename_i h1
    push_neg at h1
    have hinv : qinv q = q⁻¹ := qinv_eq q
    rw [hinv]
    have hr1 : 1 < q⁻¹ := (one_lt_inv_iff₀).mpr ⟨hq0, h1⟩
    have hrf : q⁻¹ ≤ 2 ^ flFuel := by
      have h1074 : pow2 (-1074) ≤ q := hlo
      rw [pow2_eq] at h1074
      have : q⁻¹ ≤ ((2:ℚ) ^ ((-1074 : ℤ)))⁻¹ := by
        apply inv_anti₀ (zpow_pos (by norm_num) _) h1074
      calc q⁻¹ ≤ ((2:ℚ) ^ ((-1074 : ℤ)))⁻¹ := this
      _ = (2:ℚ) ^ ((1074 : ℤ)) := by
          rw [← zpow_neg]
          norm_num
      _ ≤ 2 ^ flFuel := by
          rw [show ((1074:ℤ)) = ((1074:ℕ) : ℤ) by norm_num, zpow_natCast]
          exact pow_le_pow_right₀ (by norm_num) (by norm_num [flFuel])
    obtain ⟨ha, hb⟩ := clog2Q_spec flFuel q⁻¹ hr1 hrf
    set c : ℕ := clog2Q flFuel q⁻¹ with hc
    have h2c : (0:ℚ) < 2 ^ c := by positivity
    constructor
    · rw [zpow_neg, zpow_natCast]
      rw [inv_le_iff_one_le_mul₀ h2c]
      calc (1:ℚ) = q * q⁻¹ := (mul_inv_cancel₀ hq0.ne').symm
      _ ≤ q * 2 ^ c := by
          have := mul_le_mul_of_nonneg_left ha hq0.le
          linarith
    · have hcq : (2:ℚ) ^ c < 2 * q⁻¹ := hb
      have : q * (2 ^ c) < q * (2 * q⁻¹) := mul_lt_mul_of_pos_left hcq hq0
      rw [mul_comm (2:ℚ) q⁻¹, ← mul_assoc, mul_inv_cancel₀ hq0.ne', one_mul] at this
      have h2 : q * 2 ^ c < 2 := this
      rw [show (-(c:ℤ) + 1) = -((c:ℤ) - 1) by ring, zpow_neg]
      have hpow : ((2:ℚ) ^ ((c:ℤ) - 1))⁻¹ = 2 / 2 ^ (c:ℤ) := by
        rw [zpow_sub₀ (by norm_num : (2:ℚ) ≠ 0), zpow_one, inv_div]
      rw [hpow, zpow_natCast, lt_div_iff₀ (by positivity : (0:ℚ) < (2:ℚ) ^ c)]
      exact h2

theorem pow2_mul_pow2 (a b : ℤ) : pow2 a * pow2 b = pow2 (a + b) := by
  rw [pow2_eq, pow2_eq, pow2_eq, ← zpow_add₀ (by norm_num : (2:ℚ) ≠ 0)]

theorem pow2_zero : pow2 0 = 1 := by
  rw [pow2_eq, zpow_zero]

theorem pow2_neg_one : pow2 (-1) = 1/2 := by
  rw [pow2_eq]
  norm_num

theorem rne_nonneg (x : ℚ) (h : 0 ≤ x) : 0 ≤ (rne x : ℚ) := by
  rw [rne]
  have hfl : (0:ℤ) ≤ ⌊x⌋ := Int.floor_nonneg.mpr h
  have hfl1 : (0:ℤ) ≤ ⌊x⌋ + 1 := by omega
  split
  · exact_mod_cast hfl
  · split
    · exact_mod_cast hfl1
    · split
      · exact_mod_cast hfl
      · exact_mod_cast hfl1

theorem fl_nonneg (q : ℚ) (h : 0 ≤ q) : 0 ≤ fl q := by
  by_cases hq : q = 0
  · rw [fl, if_pos hq]
  · rw [fl, if_neg hq, qmul_eq, qmul_eq]
    exact mul_nonneg (rne_nonneg _ (mul_nonneg h (pow2_pos _).le)) (pow2_pos _).le

theorem half_le_imp_lo (q : ℚ) (hq : 1/2 ≤ q) : pow2 (-1074) ≤ q := by
  calc pow2 (-1074) ≤ pow2 (-1) := by
        rw [pow2_eq, pow2_eq]
        exact zpow_le_zpow_right₀ (by norm_num) (by norm_num)
  _ = 1/2 := pow2_neg_one
  _ ≤ q := hq

theorem fl_le (q : ℚ) (hq : 1/2 ≤ q) (hhi : q < pow2 1074) :
    fl q ≤ q + q * pow2 (-53) := by
  have hq0 : 0 < q := by linarith
  obtain ⟨hs1, hs2⟩ := qlog2_spec q (half_le_imp_lo q hq) hhi
  rw [fl, if_neg hq0.ne']
  rw [qmul_eq, qmul_eq]
  calc (rne (q * pow2 (-(qlog2 q - 52))) : ℚ) * pow2 (qlog2 q - 52)
      ≤ (q * pow2 (-(qlog2 q - 52)) + 1/2) * pow2 (qlog2 q - 52) :=
        mul_le_mul_of_nonneg_right (rne_le _) (pow2_pos _).le
    _ = q * (pow2 (-(qlog2 q - 52)) * pow2 (qlog2 q - 52)) + pow2 (qlog2 q - 52) * (1/2) := by
        ring
    _ = q + pow2 (qlog2 q - 53) := by
        rw [pow2_mul_pow2, show (-(qlog2 q - 52) + (qlog2 q - 52)) = (0:ℤ) by ring, pow2_zero,
          mul_one, show (1/2 : ℚ) = pow2 (-1) from pow2_neg_one.symm, pow2_mul_pow2,
          show (qlog2 q - 52 + -1) = qlog2 q - 53 by ring]
    _ ≤ q + q * pow2 (-53) := by
        have hsplit : pow2 (qlog2 q - 53) = pow2 (qlog2 q) * pow2 (-53) := by
          rw [pow2_mul_pow2, show (qlog2 q + -53) = qlog2 q - 53 by ring]
        rw [hsplit]
        have hL : pow2 (qlog2 q) ≤ q := by rw [pow2_eq]; exact hs1
        have := mul_le_mul_of_nonneg_right hL (pow2_pos (-53)).le
        linarith

theorem fl_ge (q : ℚ) (hq : 1/2 ≤ q) (hhi : q < pow2 1074) :
    q - q * pow2 (-53) ≤ fl q := by
  have hq0 : 0 < q := by linarith
  obtain ⟨hs1, hs2⟩ := qlog2_spec q (half_le_imp_lo q hq) hhi
  rw [fl, if_neg hq0.ne']
  rw [qmul_eq, qmul_eq]
  have key : (q * pow2 (-(qlog2 q - 52)) - 1/2) * pow2 (qlog2 q - 52)
      ≤ (rne (q * pow2 (-(qlog2 q - 52))) : ℚ) * pow2 (qlog2 q - 52) :=
    mul_le_mul_of_nonneg_right (rne_ge _) (pow2_pos _).le
  calc q - q * pow2 (-53)
      ≤ q - pow2 (qlog2 q - 53) := by
        have hsplit : pow2 (qlog2 q - 53) = pow2 (qlog2 q) * pow2 (-53) := by
          rw [pow2_mul_pow2, show (qlog2 q + -53) = qlog2 q - 53 by ring]
        rw [hsplit]
        have hL : pow2 (qlog2 q) ≤ q := by rw [pow2_eq]; exact hs1
        have := mul_le_mul_of_nonneg_right hL (pow2_pos (-53)).le
        linarith
    _ = (q * pow2 (-(qlog2 q - 52)) - 1/2) * pow2 (qlog2 q - 52) := by
        rw [sub_mul, mul_assoc, pow2_mul_pow2,
          show (-(qlog2 q - 52) + (qlog2 q - 52)) = (0:ℤ) by ring, pow2_zero, mul_one,
          show (1/2 : ℚ) * pow2 (qlog2 q - 52) = pow2 (qlog2 q - 52) * (1/2) from mul_comm _ _,
          show (1/2 : ℚ) = pow2 (-1) from pow2_neg_one.symm, pow2_mul_pow2,
          show (qlog2 q - 52 + -1) = qlog2 q - 53 by ring]
    _ ≤ (rne (q * pow2 (-(qlog2 q - 52))) : ℚ) * pow2 (qlog2 q - 52) := key

/-! ### Data model

`protocol` constants that are not under `src/` are modelled from the spec;
their values follow the upstream quic-go definitions the spec describes.
-/

/-- Modelled from the spec: `protocol.InvalidPacketNumber` is not under
`src/`; the spec says the sentinel "compares less than any real packet
number", and upstream quic-go uses `-1`. -/
def InvalidPacketNumber : ℤ := -1

/-- Modelled from the spec: `protocol.MaxByteCount`, "the maximum
representable byte count" (upstream quic-go: `1<<62 - 1`, the largest
QUIC varint). -/
def MaxByteCount : ℕ := 2 ^ 62 - 1

/-- Modelled from the spec: `protocol.MaxCongestionWindowPackets` is not
under `src/`; upstream quic-go sets it to 10000 packets. -/
def MaxCongestionWindowPackets : ℕ := 10000

/-- `utils.StartAlgo` from `src/unnamed/part_000`. -/
inductive StartAlgo where
  | chooseSlowStart
  | chooseHystart
  | chooseHystartpp
deriving DecidableEq, Repr

/-- `utils.CongestionAlgo` from `src/unnamed/part_000`. -/
inductive CongestionAlgo where
  | chooseNewReno
  | chooseCubic
deriving DecidableEq, Repr

/-- Modelled from the spec: `logging.CongestionState` is not under `src/`;
§4.7 lists the five states, `SlowStart` first (the Go zero value). -/
inductive CongestionState where
  | slowStart
  | lowSlowStart
  | congestionAvoidance
  | recovery
  | applicationLimited
deriving DecidableEq, Repr

/-- Modelled from the spec: `utils.MinDuration` (not under `src/`) returns
the smaller of two durations. -/
def MinDuration (a b : ℤ) : ℤ := min a b

/-- Modelled from the spec: `utils.MaxDuration` (not under `src/`) returns
the larger of two durations. -/
def MaxDuration (a b : ℤ) : ℤ := max a b

/-- Modelled from the spec: `utils.MinByteCount` (not under `src/`) returns
the smaller of two byte counts. -/
def MinByteCount (a b : ℕ) : ℕ := min a b

/-! ### HybridSlowStartpp (`src/internal/congestion/hybrid_slow_start_pp.go`) -/

/-- `hybridStartppLowWindow` (line 13): low-window gate, in segments. -/
def hybridStartppLowWindow : ℕ := 16

/-- `hybridStartppNRttSample` (line 17). -/
def hybridStartppNRttSample : ℕ := 8

/-- `hybridStartppL` (line 20): RFC 3465 byte-counting limit. -/
def hybridStartppL : ℕ := 2

/-- `hybridStartppLSS_DIVISOR` (line 23): the float literal `0.25`. -/
def hybridStartppLSS_DIVISOR : ℚ := mkRat 1 4

/-- `hybridStartppDelayMinThresholdUs` (line 28).  As in the Go source this
is an untyped constant that is compared against `time.Duration` values, so
its unit there is nanoseconds. -/
def hybridStartppDelayMinThresholdUs : ℤ := 4000

/-- `hybridStartppDelayMaxThresholdUs` (line 29); same unit caveat. -/
def hybridStartppDelayMaxThresholdUs : ℤ := 16000

/-- The `HybridSlowStartpp` struct (lines 33-41).  Default values are the Go
zero values. -/
structure HybridSlowStartpp where
  endPacketNumber : ℤ := 0
  lastSentPacketNumber : ℤ := 0
  started : Bool := false
  currentRoundMinRTT : ℤ := 0
  lastRoundMinRTT : ℤ := 0
  rttSampleCount : ℕ := 0
  inLSS : Bool := false
deriving DecidableEq, Repr

namespace HybridSlowStartpp

/-- `StartReceiveRound` (lines 44-51). -/
def StartReceiveRound (s : HybridSlowStartpp) (lastSent : ℤ) : HybridSlowStartpp :=
  { s with
    endPacketNumber := lastSent
    lastRoundMinRTT := s.currentRoundMinRTT
    currentRoundMinRTT := 0
    rttSampleCount := 0
    inLSS := false
    started := true }

/-- `IsInLSS` (lines 53-55). -/
def IsInLSS (s : HybridSlowStartpp) : Bool := s.inLSS

/-- `IsEndOfRound` (lines 57-59). -/
def IsEndOfRound (s : HybridSlowStartpp) (ack : ℤ) : Bool :=
  decide (s.endPacketNumber < ack)

/-- `ShouldExitSlowStart` (lines 76-94).  Returns the updated state and the
Go return value.  The `rttSampleCount` increment happens before the window
test, as in the source; the threshold expression is the source's
`MaxDuration(hybridStartppDelayMaxThresholdUs, MinDuration(lastRoundMinRTT/8,
hybridStartppDelayMaxThresholdUs))` (line 86), where `/` is Go `int64`
division (truncation toward zero). -/
def ShouldExitSlowStart (s : HybridSlowStartpp) (latestRTT _minRTT : ℤ)
    (congestionWindow maxSegmentSize : ℕ) : HybridSlowStartpp × Bool :=
  let s := if !s.started then s.StartReceiveRound s.lastSentPacketNumber else s
  let s := { s with
    currentRoundMinRTT := MinDuration s.currentRoundMinRTT latestRTT
    rttSampleCount := s.rttSampleCount + 1 }
  if congestionWindow ≥ hybridStartppLowWindow * maxSegmentSize ∧
      s.rttSampleCount ≥ hybridStartppNRttSample then
    let rttThresh := MaxDuration hybridStartppDelayMaxThresholdUs
      (MinDuration (Int.tdiv s.lastRoundMinRTT 8) hybridStartppDelayMaxThresholdUs)
    if s.currentRoundMinRTT ≥ s.lastRoundMinRTT + rttThresh then
      ({ s with inLSS := true }, true)
    else (s, false)
  else (s, false)

/-- `OnPacketSent` (lines 97-99). -/
def OnPacketSent (s : HybridSlowStartpp) (packetNumber : ℤ) : HybridSlowStartpp :=
  { s with lastSentPacketNumber := packetNumber }

/-- `OnPacketAcked` (lines 104-108). -/
def OnPacketAcked (s : HybridSlowStartpp) (ackedPacketNumber : ℤ) :
    HybridSlowStartpp :=
  if s.IsEndOfRound ackedPacketNumber then { s with started := false } else s

/-- `Restart` (lines 111-113). -/
def Restart (s : HybridSlowStartpp) : HybridSlowStartpp :=
  { s with started := false }

/-- Modelled from the spec: `QuitLSS` is called by `cubic_sender.go` (line
230) but missing from the version of `hybrid_slow_start_pp.go` under
`src/`; per §4.2 it permanently leaves Limited Slow Start
(`in_lss := false`). -/
def QuitLSS (s : HybridSlowStartpp) : HybridSlowStartpp :=
  { s with inLSS := false }

/-- Modelled from the spec: `UpdateCwndHystartppSlowStart` is called by
`cubic_sender.go` (line 300) but missing from the version of
`hybrid_slow_start_pp.go` under `src/`.  It is the non-LSS branch of that
file's `UpdateCwndHystartpp` (line 67): Appropriate Byte Counting growth
`cwnd + min(ackedBytes, L*maxDatagramSize)` computed in `float64` and
truncated back to a byte count. -/
def UpdateCwndHystartppSlowStart (ackedBytes cwnd maxDatagramSize : ℕ) : ℕ :=
  cwnd + truncF (min (fl (ackedBytes : ℚ)) (fl (qmul 2 (fl (maxDatagramSize : ℚ)))))

/-- Modelled from the spec: `UpdateCwndHystartppLowSlowStart` is called by
`cubic_sender.go` (line 320) but missing from the version of
`hybrid_slow_start_pp.go` under `src/`.  It is the LSS branch of that
file's `UpdateCwndHystartpp` (lines 64-65): with
`K = cwnd / (LSS_DIVISOR * ssthresh)`, the new window is
`max(cwnd + min(ackedBytes, L*maxDatagramSize)/K, predictedCAcwnd)`, all in
`float64`, truncated back to a byte count. -/
def UpdateCwndHystartppLowSlowStart (ackedBytes cwnd maxDatagramSize ssthresh
    predictedCAcwnd : ℕ) : ℕ :=
  let K : ℚ := fl (qdiv (fl (cwnd : ℚ)) (fl (qmul hybridStartppLSS_DIVISOR (fl (ssthresh : ℚ)))))
  truncF (max (fl (qadd (fl (cwnd : ℚ))
      (fl (qdiv (min (fl (ackedBytes : ℚ)) (fl (qmul 2 (fl (maxDatagramSize : ℚ))))) K))))
    (fl (predictedCAcwnd : ℚ)))

end HybridSlowStartpp

/-! ### HyStart detector, CUBIC and Pacer

`hybrid_slow_start.go`, `cubic.go`, `pacer.go` and `bandwidth.go` are not
under `src/`; they are modelled from the spec (§4.3, §4.4, §4.6).  Where the
spec prescribes floating point for CUBIC, exact rational arithmetic stands
in: no claim depends on CUBIC's numeric output, only on its reset behaviour
and on lower bounds that hold in either arithmetic.
-/

/-- Modelled from the spec (§3, §4.4): the round state of the classic
HyStart detector (`hybrid_slow_start.go` is not under `src/`). -/
structure HybridSlowStart where
  endPacketNumber : ℤ := 0
  lastSentPacketNumber : ℤ := 0
  started : Bool := false
  currentRoundMinRTT : ℤ := 0
  lastRoundMinRTT : ℤ := 0
  rttSampleCount : ℕ := 0
deriving DecidableEq, Repr

namespace HybridSlowStart

/-- Modelled from the spec (§4.4): a round begins by recording the last
sent packet, rotating the round minima and zeroing the counters. -/
def StartReceiveRound (s : HybridSlowStart) (lastSent : ℤ) : HybridSlowStart :=
  { s with
    endPacketNumber := lastSent
    lastRoundMinRTT := s.currentRoundMinRTT
    currentRoundMinRTT := 0
    rttSampleCount := 0
    started := true }

/-- Modelled from the spec (§4.4): the round ends when an ack past the
round's end packet arrives. -/
def IsEndOfRound (s : HybridSlowStart) (ack : ℤ) : Bool :=
  decide (s.endPacketNumber < ack)

/-- Modelled from the spec (§4.4, spec scenario 3): per ack-sampled RTT the
round minimum and sample count are updated, and exit is signalled when the
window (in packets, as passed by the Sender) is at least 16, at least 8
samples were taken, and `current ≥ last + clamp(last/8, 4 ms, 16 ms)`. -/
def ShouldExitSlowStart (s : HybridSlowStart) (latestRTT _minRTT : ℤ)
    (congestionWindowPackets : ℕ) : HybridSlowStart × Bool :=
  let s := if !s.started then s.StartReceiveRound s.lastSentPacketNumber else s
  let s := { s with
    currentRoundMinRTT := MinDuration s.currentRoundMinRTT latestRTT
    rttSampleCount := s.rttSampleCount + 1 }
  if congestionWindowPackets ≥ 16 ∧ s.rttSampleCount ≥ 8 then
    let rttThresh := MaxDuration 4000000
      (MinDuration (Int.tdiv s.lastRoundMinRTT 8) 16000000)
    if s.currentRoundMinRTT ≥ s.lastRoundMinRTT + rttThresh then
      (s, true)
    else (s, false)
  else (s, false)

/-- Modelled from the spec (§3): the detector shadows the last sent packet
number at each send. -/
def OnPacketSent (s : HybridSlowStart) (packetNumber : ℤ) : HybridSlowStart :=
  { s with lastSentPacketNumber := packetNumber }

/-- Modelled from the spec (§4.4): the round closes at the final ack of the
burst so that the next ack starts a new round. -/
def OnPacketAcked (s : HybridSlowStart) (ackedPacketNumber : ℤ) : HybridSlowStart :=
  if s.IsEndOfRound ackedPacketNumber then { s with started := false } else s

/-- Modelled from the spec (§4.1): restarting the detector forgets the
current round. -/
def Restart (s : HybridSlowStart) : HybridSlowStart :=
  { s with started := false }

end HybridSlowStart

/-- Fuel-driven bisection step for the integer cube root, written with a
bare `Nat.rec` so the kernel evaluates it lazily. -/
def icbrtAux (n : ℕ) (fuel : ℕ) (lo hi : ℕ) : ℕ :=
  Nat.rec (motive := fun _ => ℕ → ℕ → ℕ) (fun lo _ => lo)
    (fun _ ih lo hi =>
      if hi ≤ lo + 1 then lo
      else if ((lo + hi) / 2) * ((lo + hi) / 2) * ((lo + hi) / 2) ≤ n then ih ((lo + hi) / 2) hi
      else ih lo ((lo + hi) / 2)) fuel lo hi

/-- Integer cube root by bisection. -/
def icbrt (n : ℕ) : ℕ := icbrtAux n 200 0 (n + 1)

/-- Modelled from the spec (§4.3): the cube root used to seed CUBIC's `K`.
Go's `math.Cbrt` carries no exact specification; a deterministic
fixed-point approximation stands in, and no claim depends on its value. -/
def cbrtQ (q : ℚ) : ℚ :=
  if q ≤ 0 then 0 else qmul ((icbrt (truncF (qmul q (pow2 60))) : ℕ) : ℚ) (pow2 (-20))

/-- Modelled from the spec (§3, §4.3): CUBIC's internal state — epoch start
time, the window at the last loss (`W_max`), the origin point `K`, the
Reno-equivalent window estimate, and the last update time.  Times are in
seconds. -/
structure Cubic where
  epoch : Option ℚ := none
  wMax : ℚ := 0
  k : ℚ := 0
  renoEq : ℚ := 0
  lastUpdate : ℚ := 0
deriving DecidableEq, Repr

namespace Cubic

/-- Modelled from the spec (§4.3): β = 0.7. -/
def beta : ℚ := mkRat 7 10

/-- Modelled from the spec (§4.3): C = 0.4. -/
def cConst : ℚ := mkRat 2 5

/-- Modelled from the spec (§4.3): the Reno-equivalent per-ack gain
`3 × (1 − β) / (1 + β) = 9/17`. -/
def renoGain : ℚ := mkRat 9 17

/-- Modelled from the spec (§4.3): on RTO / migration the internal state is
fully reset. -/
def Reset (_c : Cubic) : Cubic := {}

/-- Modelled from the spec (§4.3): when application-limited, the epoch is
dropped so no growth credit accrues while idle. -/
def OnApplicationLimited (c : Cubic) : Cubic := { c with epoch := none }

/-- Modelled from the spec (§4.3): on loss `W_max := cwnd`, the epoch is
cleared, and the returned window is `cwnd × β`. -/
def CongestionWindowAfterPacketLoss (c : Cubic) (cwnd : ℕ) : Cubic × ℕ :=
  ({ c with wMax := (cwnd : ℚ), epoch := none },
    truncF (qmul beta (cwnd : ℚ)))

/-- Modelled from the spec (§4.3): on ack, initialize the epoch if unset
(seeding `K` from `W_max` and the Reno-equivalent window from the current
window), compute the cubic target extrapolated one `delayMin` ahead, grow
the Reno-equivalent window, and return the larger of the two. -/
def CongestionWindowAfterAck (c : Cubic) (ackedBytes cwnd : ℕ)
    (delayMin : ℤ) (eventTime : ℚ) : Cubic × ℕ :=
  let c := match c.epoch with
    | none =>
      { c with
        epoch := some eventTime
        k := cbrtQ (qdiv (qmul c.wMax (qsub 1 beta)) cConst)
        renoEq := (cwnd : ℚ) }
    | some _ => c
  let ep := c.epoch.getD eventTime
  let dt := qadd (qsub eventTime ep) (qmul (delayMin : ℚ) (mkRat 1 1000000000))
  let target := qadd (qmul cConst (qmul (qsub dt c.k) (qmul (qsub dt c.k) (qsub dt c.k)))) c.wMax
  let c := { c with
    renoEq := qadd c.renoEq (qdiv (qmul renoGain (ackedBytes : ℚ)) (cwnd : ℚ))
    lastUpdate := eventTime }
  (c, max (truncF target) (truncF c.renoEq))

end Cubic

/-- Modelled from the spec (§4.6): the bandwidth estimate, with `none` as
the "infinite" sentinel used before any RTT measurement. -/
abbrev Bandwidth := Option ℚ

/-- `maxBurstPackets` (`cubic_sender.go` line 16). -/
def maxBurstPackets : ℕ := 3

/-- Modelled from the spec (§4.6): the pacing gain (e.g. 1.25; the
implementation MAY use a single gain). -/
def pacerGain : ℚ := mkRat 5 4

/-- Modelled from the spec (§3, §4.6): the Pacer's token-bucket state —
remaining byte budget, time of the last budget update (seconds), and the
maximum datagram size from which the burst size is computed.  The bandwidth
callable is supplied at each call site. -/
structure Pacer where
  budget : ℚ
  lastUpdate : ℚ
  maxDatagramSize : ℕ
deriving DecidableEq, Repr

namespace Pacer

/-- Modelled from the spec (§4.6): burst size is
`max_burst_packets × max_datagram_size`. -/
def burstSize (p : Pacer) : ℚ := ((maxBurstPackets * p.maxDatagramSize : ℕ) : ℚ)

/-- Modelled from the spec (§4.6): refill the budget at the paced rate, cap
at the burst size, subtract the sent bytes.  Infinite bandwidth refills the
bucket completely. -/
def SentPacket (p : Pacer) (now : ℚ) (bytes : ℕ) (bw : Bandwidth) : Pacer :=
  let filled : ℚ := match bw with
    | none => p.burstSize
    | some r => min p.burstSize (qadd p.budget (qmul (qmul pacerGain r) (qsub now p.lastUpdate)))
  { p with budget := qsub filled ((bytes : ℕ) : ℚ), lastUpdate := now }

/-- Modelled from the spec (§4.1, §4.6): the Pacer is informed of datagram
size changes. -/
def SetMaxDatagramSize (p : Pacer) (s : ℕ) : Pacer :=
  { p with maxDatagramSize := s }

end Pacer

/-- Modelled from the spec (§4.6): a fresh pacer starts with a full burst
budget. -/
def newPacer (mds : ℕ) : Pacer :=
  { budget := ((maxBurstPackets * mds : ℕ) : ℚ), lastUpdate := 0, maxDatagramSize := mds }

/-! ### The Sender (`src/internal/congestion/cubic_sender.go`)

The `rttStats` reads (`LatestRTT`, `MinRTT`, `SmoothedRTT`) and the clock
are external inputs; each method that consumes them takes the value read at
that moment as an argument.  Methods that can emit congestion states return
the list of emitted states alongside the new state.  `ℕ` division by zero
yields 0 where Go would panic on `maxDatagramSize = 0`; every theorem below
keeps `maxDatagramSize` positive, matching real datagram sizes. -/

/-- `minCongestionWindowPackets` (line 18). -/
def minCongestionWindowPackets : ℕ := 2

/-- `initialCongestionWindow` (line 19), in packets. -/
def initialCongestionWindowPackets : ℕ := 32

/-- The `cubicSender` struct (lines 22-62). -/
structure CubicSender where
  hybridSlowStart : HybridSlowStart
  hybridSlowStartpp : HybridSlowStartpp
  cubic : Cubic
  pacer : Pacer
  chosenStartAlgo : StartAlgo
  chosenCongestionAlgo : CongestionAlgo
  largestSentPacketNumber : ℤ
  largestAckedPacketNumber : ℤ
  largestSentAtLastCutback : ℤ
  lastCutbackExitedSlowstart : Bool
  congestionWindow : ℕ
  slowStartThreshold : ℕ
  numAckedPackets : ℕ
  initialCongestionWindow : ℕ
  initialMaxCongestionWindow : ℕ
  maxDatagramSize : ℕ
  lastState : CongestionState
  tracer : Bool
deriving DecidableEq, Repr

/-- `newCubicSender` (lines 90-122).  The Go zero value of `lastState` is
`CongestionStateSlowStart`, which the constructor also assigns when a
tracer is present; the second component is the trace emitted at
construction. -/
def newCubicSender (chosenStartAlgo : StartAlgo) (chosenCongestionAlgo : CongestionAlgo)
    (initialMaxDatagramSize initialCongestionWindow initialMaxCongestionWindow : ℕ)
    (tracer : Bool) : CubicSender × List CongestionState :=
  ({ hybridSlowStart := {}
     hybridSlowStartpp := {}
     cubic := {}
     pacer := newPacer initialMaxDatagramSize
     chosenStartAlgo := chosenStartAlgo
     chosenCongestionAlgo := chosenCongestionAlgo
     largestSentPacketNumber := InvalidPacketNumber
     largestAckedPacketNumber := InvalidPacketNumber
     largestSentAtLastCutback := InvalidPacketNumber
     lastCutbackExitedSlowstart := false
     congestionWindow := initialCongestionWindow
     slowStartThreshold := MaxByteCount
     numAckedPackets := 0
     initialCongestionWindow := initialCongestionWindow
     initialMaxCongestionWindow := initialMaxCongestionWindow
     maxDatagramSize := initialMaxDatagramSize
     lastState := CongestionState.slowStart
     tracer := tracer },
   if tracer then [CongestionState.slowStart] else [])

/-- `NewCubicSender` (lines 70-88): the exported constructor fixes the
initial window to 32 packets and the maximum window to
`MaxCongestionWindowPackets` packets. -/
def NewCubicSender (chosenStartAlgo : StartAlgo) (chosenCongestionAlgo : CongestionAlgo)
    (initialMaxDatagramSize : ℕ) (tracer : Bool) : CubicSender × List CongestionState :=
  newCubicSender chosenStartAlgo chosenCongestionAlgo initialMaxDatagramSize
    (initialCongestionWindowPackets * initialMaxDatagramSize)
    (MaxCongestionWindowPackets * initialMaxDatagramSize) tracer

namespace CubicSender

/-- `maxCongestionWindow` (lines 133-135). -/
def maxCongestionWindow (c : CubicSender) : ℕ :=
  c.maxDatagramSize * MaxCongestionWindowPackets

/-- `minCongestionWindow` (lines 137-139). -/
def minCongestionWindow (c : CubicSender) : ℕ :=
  c.maxDatagramSize * minCongestionWindowPackets

/-- `GetCongestionWindow` (lines 177-179). -/
def GetCongestionWindow (c : CubicSender) : ℕ := c.congestionWindow

/-- `CanSend` (lines 161-163). -/
def CanSend (c : CubicSender) (bytesInFlight : ℕ) : Bool :=
  decide (bytesInFlight < c.GetCongestionWindow)

/-- `InRecovery` (lines 165-167). -/
def InRecovery (c : CubicSender) : Bool :=
  decide (c.largestAckedPacketNumber ≠ InvalidPacketNumber) &&
    decide (c.largestAckedPacketNumber ≤ c.largestSentAtLastCutback)

/-- `InSlowStart` (lines 169-171). -/
def InSlowStart (c : CubicSender) : Bool :=
  decide (c.GetCongestionWindow < c.slowStartThreshold)

/-- `InLowSlowStart` (lines 173-175). -/
def InLowSlowStart (c : CubicSender) : Bool :=
  decide (c.chosenStartAlgo = StartAlgo.chooseHystartpp) && c.hybridSlowStartpp.IsInLSS

/-- `BandwidthEstimate` (lines 350-357), modelled from the spec (§4.1):
`congestion_window / smoothed_rtt` (bytes per second; the smoothed RTT is
in nanoseconds), or the infinite sentinel when the smoothed RTT is zero. -/
def BandwidthEstimate (c : CubicSender) (smoothedRTT : ℤ) : Bandwidth :=
  if smoothedRTT = 0 then none
  else some (qdiv ((c.GetCongestionWindow : ℕ) : ℚ)
    (qmul ((smoothedRTT : ℤ) : ℚ) (mkRat 1 1000000000)))

/-- `maybeTraceStateChange` (lines 396-402). -/
def maybeTraceStateChange (c : CubicSender) (new : CongestionState) :
    CubicSender × List CongestionState :=
  if !c.tracer || new = c.lastState then (c, [])
  else ({ c with lastState := new }, [new])

/-- `OnPacketSent` (lines 141-159).  `smoothedRTT` is the RTT-view value the
pacer's bandwidth callable reads during `SentPacket`. -/
def OnPacketSent (c : CubicSender) (sentTime : ℚ) (packetNumber : ℤ)
    (bytes : ℕ) (isRetransmittable : Bool) (smoothedRTT : ℤ) : CubicSender :=
  let c := { c with pacer := c.pacer.SentPacket sentTime bytes (c.BandwidthEstimate smoothedRTT) }
  if !isRetransmittable then c
  else
    let c := { c with largestSentPacketNumber := packetNumber }
    match c.chosenStartAlgo with
    | StartAlgo.chooseHystart =>
      { c with hybridSlowStart := c.hybridSlowStart.OnPacketSent packetNumber }
    | StartAlgo.chooseHystartpp =>
      { c with hybridSlowStartpp := c.hybridSlowStartpp.OnPacketSent packetNumber }
    | StartAlgo.chooseSlowStart => c

/-- `MaybeExitSlowStart` (lines 181-202).  `cubic_sender.go` passes the
window to both detectors in packets (`GetCongestionWindow()/maxDatagramSize`)
with no segment-size argument, while the `hybrid_slow_start_pp.go` under
`src/` declares a fourth `maxSegmentSize` parameter; the call is embedded
with `maxSegmentSize = 1`, making the detector's low-window gate the spec's
`cwnd ≥ 16 × max_datagram_size` (§4.4). -/
def MaybeExitSlowStart (c : CubicSender) (latestRTT minRTT : ℤ) :
    CubicSender × List CongestionState :=
  if c.InSlowStart then
    match c.chosenStartAlgo with
    | StartAlgo.chooseSlowStart => (c, [])
    | StartAlgo.chooseHystart =>
      let r := c.hybridSlowStart.ShouldExitSlowStart latestRTT minRTT
        (c.GetCongestionWindow / c.maxDatagramSize)
      let c := { c with hybridSlowStart := r.1 }
      if r.2 then
        let c := { c with slowStartThreshold := c.congestionWindow }
        c.maybeTraceStateChange CongestionState.congestionAvoidance
      else (c, [])
    | StartAlgo.chooseHystartpp =>
      let r := c.hybridSlowStartpp.ShouldExitSlowStart latestRTT minRTT
        (c.GetCongestionWindow / c.maxDatagramSize) 1
      let c := { c with hybridSlowStartpp := r.1 }
      if r.2 then
        let c := { c with slowStartThreshold := c.congestionWindow }
        c.maybeTraceStateChange CongestionState.lowSlowStart
      else (c, [])
  else (c, [])

/-- `isCwndLimited` (lines 339-347). -/
def isCwndLimited (c : CubicSender) (bytesInFlight : ℕ) : Bool :=
  if bytesInFlight ≥ c.GetCongestionWindow then true
  else
    let availableBytes := c.GetCongestionWindow - bytesInFlight
    let slowStartLimited := c.InSlowStart && decide (bytesInFlight > c.GetCongestionWindow / 2)
    slowStartLimited || decide (availableBytes ≤ maxBurstPackets * c.maxDatagramSize)

/-- `maybeIncreaseCwnd` (lines 277-337). -/
def maybeIncreaseCwnd (c : CubicSender) (ackedBytes priorInFlight : ℕ)
    (eventTime : ℚ) (minRTT : ℤ) : CubicSender × List CongestionState :=
  if !(c.isCwndLimited priorInFlight) then
    let c := { c with cubic := c.cubic.OnApplicationLimited }
    c.maybeTraceStateChange CongestionState.applicationLimited
  else if c.congestionWindow ≥ c.maxCongestionWindow then (c, [])
  else if c.InSlowStart then
    let r := c.maybeTraceStateChange CongestionState.slowStart
    let c := r.1
    match c.chosenStartAlgo with
    | StartAlgo.chooseSlowStart =>
      ({ c with congestionWindow := c.congestionWindow + c.maxDatagramSize }, r.2)
    | StartAlgo.chooseHystart =>
      ({ c with congestionWindow := c.congestionWindow + c.maxDatagramSize }, r.2)
    | StartAlgo.chooseHystartpp =>
      let w := HybridSlowStartpp.UpdateCwndHystartppSlowStart ackedBytes
        c.congestionWindow c.maxDatagramSize
      ({ c with congestionWindow := w }, r.2)
  else if c.InLowSlowStart then
    let r := c.maybeTraceStateChange CongestionState.lowSlowStart
    let c := r.1
    match c.chosenCongestionAlgo with
    | CongestionAlgo.chooseNewReno =>
      let caWindow :=
        if c.numAckedPackets ≥ c.congestionWindow / c.maxDatagramSize then
          c.congestionWindow + c.maxDatagramSize
        else c.congestionWindow
      let w := HybridSlowStartpp.UpdateCwndHystartppLowSlowStart ackedBytes
        c.congestionWindow c.maxDatagramSize c.slowStartThreshold caWindow
      ({ c with congestionWindow := w }, r.2)
    | CongestionAlgo.chooseCubic =>
      let u := c.cubic.CongestionWindowAfterAck ackedBytes c.congestionWindow minRTT eventTime
      let caWindow := MinByteCount c.maxCongestionWindow u.2
      let c := { c with cubic := u.1 }
      let w := HybridSlowStartpp.UpdateCwndHystartppLowSlowStart ackedBytes
        c.congestionWindow c.maxDatagramSize c.slowStartThreshold caWindow
      ({ c with congestionWindow := w }, r.2)
  else
    let r := c.maybeTraceStateChange CongestionState.congestionAvoidance
    let c := r.1
    match c.chosenCongestionAlgo with
    | CongestionAlgo.chooseNewReno =>
      let c := { c with numAckedPackets := c.numAckedPackets + 1 }
      if c.numAckedPackets ≥ c.congestionWindow / c.maxDatagramSize then
        ({ c with
            congestionWindow := c.congestionWindow + c.maxDatagramSize
            numAckedPackets := 0 }, r.2)
      else (c, r.2)
    | CongestionAlgo.chooseCubic =>
      let u := c.cubic.CongestionWindowAfterAck ackedBytes c.congestionWindow minRTT eventTime
      ({ c with
          cubic := u.1
          congestionWindow := MinByteCount c.maxCongestionWindow u.2 }, r.2)

/-- `OnPacketAcked` (lines 204-223). -/
def OnPacketAcked (c : CubicSender) (ackedPacketNumber : ℤ)
    (ackedBytes priorInFlight : ℕ) (eventTime : ℚ) (minRTT : ℤ) :
    CubicSender × List CongestionState :=
  let c := { c with
    largestAckedPacketNumber := max ackedPacketNumber c.largestAckedPacketNumber }
  if c.InRecovery then (c, [])
  else
    let r := c.maybeIncreaseCwnd ackedBytes priorInFlight eventTime minRTT
    let c := r.1
    if c.InSlowStart then
      match c.chosenStartAlgo with
      | StartAlgo.chooseSlowStart =>
        ({ c with hybridSlowStart := c.hybridSlowStart.OnPacketAcked ackedPacketNumber }, r.2)
      | StartAlgo.chooseHystart =>
        ({ c with hybridSlowStart := c.hybridSlowStart.OnPacketAcked ackedPacketNumber }, r.2)
      | StartAlgo.chooseHystartpp =>
        ({ c with hybridSlowStartpp := c.hybridSlowStartpp.OnPacketAcked ackedPacketNumber }, r.2)
    else (c, r.2)

/-- `OnPacketLost` (lines 225-273). -/
def OnPacketLost (c : CubicSender) (packetNumber : ℤ)
    (_lostBytes _priorInFlight : ℕ) : CubicSender × List CongestionState :=
  let r0 :=
    if c.InLowSlowStart then
      let c := { c with hybridSlowStartpp := c.hybridSlowStartpp.QuitLSS }
      let c := { c with chosenStartAlgo := StartAlgo.chooseSlowStart }
      c.maybeTraceStateChange CongestionState.congestionAvoidance
    else (c, [])
  let c := r0.1
  match c.chosenCongestionAlgo with
  | CongestionAlgo.chooseNewReno =>
    if packetNumber ≤ c.largestSentAtLastCutback then (c, r0.2)
    else
      let c := { c with lastCutbackExitedSlowstart := c.InSlowStart }
      let r1 := c.maybeTraceStateChange CongestionState.recovery
      let c := r1.1
      let c := { c with
        congestionWindow := truncF (fl (qmul (fl (c.congestionWindow : ℚ)) renoBetaF)) }
      let c :=
        if c.congestionWindow < c.minCongestionWindow then
          { c with congestionWindow := c.minCongestionWindow }
        else c
      let c := { c with
        slowStartThreshold := c.congestionWindow
        largestSentAtLastCutback := c.largestSentPacketNumber
        numAckedPackets := 0 }
      (c, r0.2 ++ r1.2)
  | CongestionAlgo.chooseCubic =>
    if packetNumber ≤ c.largestSentAtLastCutback then (c, r0.2)
    else
      let c := { c with lastCutbackExitedSlowstart := c.InSlowStart }
      let r1 := c.maybeTraceStateChange CongestionState.recovery
      let c := r1.1
      let u := c.cubic.CongestionWindowAfterPacketLoss c.congestionWindow
      let c := { c with cubic := u.1, congestionWindow := u.2 }
      let c :=
        if c.congestionWindow < c.minCongestionWindow then
          { c with congestionWindow := c.minCongestionWindow }
        else c
      let c := { c with
        slowStartThreshold := c.congestionWindow
        largestSentAtLastCutback := c.largestSentPacketNumber
        numAckedPackets := 0 }
      (c, r0.2 ++ r1.2)

/-- `OnRetransmissionTimeout` (lines 360-375). -/
def OnRetransmissionTimeout (c : CubicSender) (packetsRetransmitted : Bool) : CubicSender :=
  let c := { c with largestSentAtLastCutback := InvalidPacketNumber }
  if !packetsRetransmitted then c
  else
    let c :=
      match c.chosenStartAlgo with
      | StartAlgo.chooseHystartpp =>
        { c with hybridSlowStartpp := c.hybridSlowStartpp.Restart }
      | StartAlgo.chooseHystart =>
        { c with hybridSlowStart := c.hybridSlowStart.Restart }
      | StartAlgo.chooseSlowStart => c
    { c with
      cubic := c.cubic.Reset
      slowStartThreshold := c.congestionWindow / 2
      congestionWindow := c.minCongestionWindow }

/-- `OnConnectionMigration` (lines 378-394). -/
def OnConnectionMigration (c : CubicSender) : CubicSender :=
  let c :=
    match c.chosenStartAlgo with
    | StartAlgo.chooseHystart =>
      { c with hybridSlowStart := c.hybridSlowStart.Restart }
    | StartAlgo.chooseHystartpp =>
      { c with hybridSlowStartpp := c.hybridSlowStartpp.Restart }
    | StartAlgo.chooseSlowStart => c
  { c with
    largestSentPacketNumber := InvalidPacketNumber
    largestAckedPacketNumber := InvalidPacketNumber
    largestSentAtLastCutback := InvalidPacketNumber
    lastCutbackExitedSlowstart := false
    cubic := c.cubic.Reset
    numAckedPackets := 0
    congestionWindow := c.initialCongestionWindow
    slowStartThreshold := c.initialMaxCongestionWindow }

/-- `SetMaxDatagramSize` (lines 404-414): `none` models the Go `panic` on a
decreasing datagram size. -/
def SetMaxDatagramSize (c : CubicSender) (s : ℕ) : Option CubicSender :=
  if s < c.maxDatagramSize then none
  else
    let cwndIsMinCwnd := c.congestionWindow = c.minCongestionWindow
    let c := { c with maxDatagramSize := s }
    let c :=
      if cwndIsMinCwnd then { c with congestionWindow := c.minCongestionWindow }
      else c
    some { c with pacer := c.pacer.SetMaxDatagramSize s }

end CubicSender

/-! ### Event sequences

`Op` packages one external event together with the RTT-view readings the
Sender would perform while handling it.  `runOps` drives a Sender through a
sequence of events, collecting every congestion state emitted to the
tracer; a panic (`SetMaxDatagramSize` with a smaller size) stops the run. -/

/-- One external event, with the RTT-view values read while handling it. -/
inductive Op where
  | sent (sentTime : ℚ) (packetNumber : ℤ) (bytes : ℕ)
      (isRetransmittable : Bool) (smoothedRTT : ℤ)
  | acked (packetNumber : ℤ) (ackedBytes priorInFlight : ℕ)
      (eventTime : ℚ) (minRTT : ℤ)
  | lost (packetNumber : ℤ) (lostBytes priorInFlight : ℕ)
  | rto (packetsRetransmitted : Bool)
  | migrate
  | maybeExit (latestRTT minRTT : ℤ)
  | setMDS (s : ℕ)
deriving DecidableEq, Repr

/-- Dispatch one event to the Sender; `none` models a Go panic. -/
def step (op : Op) (c : CubicSender) : Option (CubicSender × List CongestionState) :=
  match op with
  | Op.sent t pn b r srtt => some (c.OnPacketSent t pn b r srtt, [])
  | Op.acked pn ab pif t minrtt => some (c.OnPacketAcked pn ab pif t minrtt)
  | Op.lost pn lb pif => some (c.OnPacketLost pn lb pif)
  | Op.rto b => some (c.OnRetransmissionTimeout b, [])
  | Op.migrate => some (c.OnConnectionMigration, [])
  | Op.maybeExit l m => some (c.MaybeExitSlowStart l m)
  | Op.setMDS s => (c.SetMaxDatagramSize s).map (fun c2 => (c2, []))

/-- Run a sequence of events, collecting the emitted congestion states. -/
def runOps (ops : List Op) (c : CubicSender) : CubicSender × List CongestionState :=
  match ops with
  | [] => (c, [])
  | op :: rest =>
    match step op c with
    | none => (c, [])
    | some r =>
      let r2 := runOps rest r.1
      (r2.1, r.2 ++ r2.2)

/-! ### Detector-level event sequences (for the HyStart++ detector alone) -/

/-- One call to a `HybridSlowStartpp` method. -/
inductive PPOp where
  | startRound (lastSent : ℤ)
  | sent (packetNumber : ℤ)
  | acked (packetNumber : ℤ)
  | shouldExit (latestRTT minRTT : ℤ) (congestionWindow maxSegmentSize : ℕ)
  | restart
deriving DecidableEq, Repr

/-- Run detector calls from a state, collecting each `ShouldExitSlowStart`
return value. -/
def runPP (ops : List PPOp) (s : HybridSlowStartpp) : HybridSlowStartpp × List Bool :=
  match ops with
  | [] => (s, [])
  | op :: rest =>
    let r : HybridSlowStartpp × List Bool :=
      match op with
      | PPOp.startRound pn => (s.StartReceiveRound pn, [])
      | PPOp.sent pn => (s.OnPacketSent pn, [])
      | PPOp.acked pn => (s.OnPacketAcked pn, [])
      | PPOp.shouldExit l m cw mss =>
        ((s.ShouldExitSlowStart l m cw mss).1, [(s.ShouldExitSlowStart l m cw mss).2])
      | PPOp.restart => (s.Restart, [])
    let r2 := runPP rest r.1
    (r2.1, r.2 ++ r2.2)

/-- A detector call whose RTT sample (if any) is nonnegative. -/
def PPInputOK : PPOp → Bool
  | PPOp.shouldExit l _ _ _ => decide (0 ≤ l)
  | _ => true

/-- The detector invariant behind claim C2: both round minima are stuck at
zero and Limited Slow Start was never entered. -/
def PPInv (s : HybridSlowStartpp) : Prop :=
  s.currentRoundMinRTT = 0 ∧ s.lastRoundMinRTT = 0 ∧ s.inLSS = false

theorem shouldExit_preserves_inv (s : HybridSlowStartpp) (hs : PPInv s)
    (l m : ℤ) (cw mss : ℕ) (hl : 0 ≤ l) :
    PPInv (s.ShouldExitSlowStart l m cw mss).1 ∧
      (s.ShouldExitSlowStart l m cw mss).2 = false := by
  obtain ⟨ep, lsp, st, cur, last, cnt, lss⟩ := s
  obtain ⟨h1, h2, h3⟩ := hs
  simp only at h1 h2 h3
  subst h1; subst h2; subst h3
  have hmin : MinDuration 0 l = 0 := min_eq_left hl
  have hthresh : MaxDuration hybridStartppDelayMaxThresholdUs
      (MinDuration (Int.tdiv 0 8) hybridStartppDelayMaxThresholdUs) = 16000 := by decide
  cases st with
  | true =>
    simp only [HybridSlowStartpp.ShouldExitSlowStart, Bool.not_true, Bool.false_eq_true,
      if_false, hmin, hthresh]
    split
    · split
      · rename_i hB
        exfalso
        revert hB
        decide
      · exact ⟨⟨rfl, rfl, rfl⟩, rfl⟩
    · exact ⟨⟨rfl, rfl, rfl⟩, rfl⟩
  | false =>
    simp only [HybridSlowStartpp.ShouldExitSlowStart, HybridSlowStartpp.StartReceiveRound,
      Bool.not_false, if_true, hmin, hthresh]
    split
    · split
      · rename_i hB
        exfalso
        revert hB
        decide
      · exact ⟨⟨rfl, rfl, rfl⟩, rfl⟩
    · exact ⟨⟨rfl, rfl, rfl⟩, rfl⟩

theorem runPP_inv (ops : List PPOp) (s : HybridSlowStartpp) (hs : PPInv s)
    (h : ∀ op ∈ ops, PPInputOK op = true) :
    PPInv (runPP ops s).1 ∧ ∀ b ∈ (runPP ops s).2, b = false := by
  induction ops generalizing s with
  | nil => exact ⟨hs, by simp [runPP]⟩
  | cons op rest ih =>
    have hop := h op (List.mem_cons_self op rest)
    have hrest : ∀ o ∈ rest, PPInputOK o = true :=
      fun o ho => h o (List.mem_cons_of_mem op ho)
    obtain ⟨h1, h2, h3⟩ := hs
    cases op with
    | startRound pn =>
      have hs2 : PPInv (s.StartReceiveRound pn) := by
        exact ⟨rfl, h1, rfl⟩
      have := ih (s.StartReceiveRound pn) hs2 hrest
      simpa [runPP] using this
    | sent pn =>
      have hs2 : PPInv (s.OnPacketSent pn) := ⟨h1, h2, h3⟩
      have := ih (s.OnPacketSent pn) hs2 hrest
      simpa [runPP] using this
    | acked pn =>
      have hs2 : PPInv (s.OnPacketAcked pn) := by
        rw [HybridSlowStartpp.OnPacketAcked]
        split
        · exact ⟨h1, h2, h3⟩
        · exact ⟨h1, h2, h3⟩
      have := ih (s.OnPacketAcked pn) hs2 hrest
      simpa [runPP] using this
    | shouldExit l m cw mss =>
      have hl : (0:ℤ) ≤ l := by
        have : decide ((0:ℤ) ≤ l) = true := hop
        exact of_decide_eq_true this
      obtain ⟨hinv2, hres⟩ := shouldExit_preserves_inv s ⟨h1, h2, h3⟩ l m cw mss hl
      have := ih (s.ShouldExitSlowStart l m cw mss).1 hinv2 hrest
      refine ⟨by simpa [runPP] using this.1, ?_⟩
      intro b hb
      simp only [runPP, List.mem_append, List.mem_singleton] at hb
      rcases hb with hb | hb
      · rw [hb]
        exact hres
      · exact this.2 b hb
    | restart =>
      have hs2 : PPInv s.Restart := ⟨h1, h2, h3⟩
      have := ih s.Restart hs2 hrest
      simpa [runPP] using this

/-! ### Claims C1 and C2: the HyStart++ exit test -/

/-- The exit condition exactly as the specification states it (§4.4): after
recording the sample, `cwnd ≥ 16 × max_datagram_size`,
`rtt_sample_count ≥ 8`, and
`current_round_min_rtt ≥ last_round_min_rtt + clamp(last_round_min_rtt / 8,
4 ms, 16 ms)` (milliseconds expressed in nanoseconds). -/
def specExitCondition (s : HybridSlowStartpp) (congestionWindow maxSegmentSize : ℕ) : Prop :=
  congestionWindow ≥ 16 * maxSegmentSize ∧ s.rttSampleCount ≥ 8 ∧
    s.currentRoundMinRTT ≥ s.lastRoundMinRTT +
      max 4000000 (min (Int.tdiv s.lastRoundMinRTT 8) 16000000)

/-- A detector state mid-round: one sample short of the threshold, with a
40 ms round-minimum recorded last round and 100 ms so far this round. -/
def rttThreshState : HybridSlowStartpp :=
  { endPacketNumber := 100
    lastSentPacketNumber := 100
    started := true
    currentRoundMinRTT := 100000000
    lastRoundMinRTT := 64000000
    rttSampleCount := 7
    inLSS := false }

/-- C1 (code_bug): at `rttThreshState` with a 70 ms sample, window
`19200 ≥ 16 × 1200` and an eighth sample, `ShouldExitSlowStart` signals
exit (returns `true` and sets `in_lss`), although the claim's threshold
`clamp(last_round_min_rtt/8, 4 ms, 16 ms) = 8 ms` forbids it:
the updated round minimum is 70 ms `< 64 ms + 8 ms`.  The code's threshold
expression `max(MaxUs, min(last/8, MaxUs))` collapses to the constant
16000, and, compared against `time.Duration` nanoseconds, that constant
means 16 µs rather than the intended 16 ms. -/
theorem c1_shouldExitSlowStart_threshold_bug :
    (rttThreshState.ShouldExitSlowStart 70000000 0 19200 1200).2 = true ∧
    (rttThreshState.ShouldExitSlowStart 70000000 0 19200 1200).1.inLSS = true ∧
    (rttThreshState.ShouldExitSlowStart 70000000 0 19200 1200).1.currentRoundMinRTT
      = 70000000 ∧
    ¬ specExitCondition (rttThreshState.ShouldExitSlowStart 70000000 0 19200 1200).1
        19200 1200 := by
  refine ⟨by decide, by decide, by decide, ?_⟩
  rw [specExitCondition]
  decide

/-- C2: starting from the zero-initialized HyStart++ detector, as long as
every RTT sample handed to `ShouldExitSlowStart` is nonnegative, the round
minima stay zero forever, `in_lss` is never set, and every
`ShouldExitSlowStart` call returns `false`. -/
theorem c2_hybridSlowStartpp_never_exits (ops : List PPOp)
    (h : ∀ op ∈ ops, PPInputOK op = true) :
    (runPP ops {}).1.currentRoundMinRTT = 0 ∧
    (runPP ops {}).1.lastRoundMinRTT = 0 ∧
    (runPP ops {}).1.inLSS = false ∧
    ∀ b ∈ (runPP ops {}).2, b = false := by
  have h0 : PPInv {} := ⟨rfl, rfl, rfl⟩
  obtain ⟨⟨h1, h2, h3⟩, h4⟩ := runPP_inv ops {} h0 h
  exact ⟨h1, h2, h3, h4⟩

/-- Concrete run discharging C2's hypothesis: sends, acks, round starts,
restarts and eight nonnegative samples in a fresh round. -/
def c2Ops : List PPOp :=
  [PPOp.sent 1, PPOp.shouldExit 50000000 0 19200 1200, PPOp.acked 1,
   PPOp.startRound 9, PPOp.shouldExit 40000000 0 19200 1200,
   PPOp.shouldExit 40000000 0 19200 1200, PPOp.shouldExit 40000000 0 19200 1200,
   PPOp.shouldExit 40000000 0 19200 1200, PPOp.shouldExit 40000000 0 19200 1200,
   PPOp.shouldExit 40000000 0 19200 1200, PPOp.shouldExit 40000000 0 19200 1200,
   PPOp.shouldExit 40000000 0 19200 1200, PPOp.restart]

theorem c2_hybridSlowStartpp_never_exits_witness :
    (∀ op ∈ c2Ops, PPInputOK op = true) ∧
    ((runPP c2Ops {}).1.currentRoundMinRTT = 0 ∧
     (runPP c2Ops {}).1.lastRoundMinRTT = 0 ∧
     (runPP c2Ops {}).1.inLSS = false ∧
     ∀ b ∈ (runPP c2Ops {}).2, b = false) :=
  ⟨by decide, c2_hybridSlowStartpp_never_exits c2Ops (by decide)⟩

/-! ### Claim C7: retransmission timeout -/

/-- C7: `on_retransmission_timeout` always clears
`largest_sent_at_last_cutback`; with `packets_retransmitted = false` nothing
else changes, and with `true` the configured detector is restarted, CUBIC
is reset, the threshold becomes half the pre-call window and the window
collapses to `min_cwnd = 2 × max_datagram_size`. -/
theorem c7_onRetransmissionTimeout (c : CubicSender) (b : Bool) :
    (c.OnRetransmissionTimeout b).largestSentAtLastCutback = InvalidPacketNumber ∧
    (b = false → c.OnRetransmissionTimeout b =
      { c with largestSentAtLastCutback := InvalidPacketNumber }) ∧
    (b = true → c.OnRetransmissionTimeout b =
      { c with
        largestSentAtLastCutback := InvalidPacketNumber
        hybridSlowStart :=
          if c.chosenStartAlgo = StartAlgo.chooseHystart then c.hybridSlowStart.Restart
          else c.hybridSlowStart
        hybridSlowStartpp :=
          if c.chosenStartAlgo = StartAlgo.chooseHystartpp then c.hybridSlowStartpp.Restart
          else c.hybridSlowStartpp
        cubic := {}
        slowStartThreshold := c.congestionWindow / 2
        congestionWindow := c.maxDatagramSize * minCongestionWindowPackets }) := by
  cases b with
  | false =>
    exact ⟨rfl, fun _ => rfl, fun hcontra => Bool.noConfusion hcontra⟩
  | true =>
    refine ⟨?_, ?_, ?_⟩
    · cases hc : c.chosenStartAlgo <;>
        simp [CubicSender.OnRetransmissionTimeout, hc]
    · exact fun hcontra => Bool.noConfusion hcontra
    · intro _
      cases hc : c.chosenStartAlgo <;>
        simp [CubicSender.OnRetransmissionTimeout, Cubic.Reset,
          CubicSender.minCongestionWindow, hc]

/-- Concrete C7 scenario (spec scenario 6): from `cwnd = 60000` with
`max_datagram_size = 1200`, an RTO with retransmitted packets leaves
`ssthresh = 30000` and `cwnd = 2400 = 2 × 1200`. -/
def rtoState : CubicSender :=
  { (NewCubicSender StartAlgo.chooseHystart CongestionAlgo.chooseNewReno 1200 false).1 with
    congestionWindow := 60000
    slowStartThreshold := 60000 }

theorem c7_onRetransmissionTimeout_witness :
    ((false = false → rtoState.OnRetransmissionTimeout false =
        { rtoState with largestSentAtLastCutback := InvalidPacketNumber }) ∧
      (rtoState.OnRetransmissionTimeout true).slowStartThreshold = 30000 ∧
      (rtoState.OnRetransmissionTimeout true).congestionWindow = 2400) :=
  ⟨(c7_onRetransmissionTimeout rtoState false).2.1,
    by rw [((c7_onRetransmissionTimeout rtoState true).2.2 rfl)]; decide,
    by rw [((c7_onRetransmissionTimeout rtoState true).2.2 rfl)]; decide⟩

/-! ### Claim C10: `SetMaxDatagramSize` -/

/-- C10: `set_max_datagram_size(s)` panics (here: returns `none`) exactly
when `s` is strictly smaller than the current datagram size; otherwise it
records `s`, moves the window to the new `min_cwnd = 2 × s` precisely when
it sat at the old `min_cwnd`, informs the Pacer, and changes nothing
else. -/
theorem c10_setMaxDatagramSize (c : CubicSender) (s : ℕ) :
    (c.SetMaxDatagramSize s = none ↔ s < c.maxDatagramSize) ∧
    (c.maxDatagramSize ≤ s → c.SetMaxDatagramSize s = some
      { c with
        maxDatagramSize := s
        congestionWindow :=
          if c.congestionWindow = c.maxDatagramSize * minCongestionWindowPackets
          then s * minCongestionWindowPackets else c.congestionWindow
        pacer := c.pacer.SetMaxDatagramSize s }) := by
  constructor
  · constructor
    · intro hnone
      by_contra hge
      push_neg at hge
      rw [CubicSender.SetMaxDatagramSize, if_neg (not_lt.mpr hge)] at hnone
      cases hnone
    · intro hlt
      rw [CubicSender.SetMaxDatagramSize, if_pos hlt]
  · intro hge
    rw [CubicSender.SetMaxDatagramSize, if_neg (not_lt.mpr hge)]
    simp only [CubicSender.minCongestionWindow]
    by_cases hmin : c.congestionWindow = c.maxDatagramSize * minCongestionWindowPackets
    · simp [hmin]
    · simp [hmin]

theorem c10_setMaxDatagramSize_witness :
    (rtoState.SetMaxDatagramSize 1000 = none ↔ 1000 < rtoState.maxDatagramSize) ∧
      rtoState.SetMaxDatagramSize 1500 = some
        { rtoState with
          maxDatagramSize := 1500
          congestionWindow := 60000
          pacer := rtoState.pacer.SetMaxDatagramSize 1500 } :=
  ⟨(c10_setMaxDatagramSize rtoState 1000).1, by
    have h := (c10_setMaxDatagramSize rtoState 1500).2 (by decide)
    rw [h]
    decide⟩

/-! ### Claim C3: connection migration -/

/-- C3 (amended): migration resets the packet-number trackers, the cutback
flag, the ack counter, the CUBIC state and the window to their
freshly-constructed values and restarts the configured detector's round,
but sets `slow_start_threshold` to `initialMaxCongestionWindow` — not the
maximum byte count a fresh Sender starts with — and leaves the datagram
size, algorithm choices, pacer, remaining detector round data and last
traced state untouched, so the result is not bit-identical to a fresh
Sender. -/
theorem c3_onConnectionMigration (c : CubicSender) :
    c.OnConnectionMigration =
      { c with
        hybridSlowStart :=
          if c.chosenStartAlgo = StartAlgo.chooseHystart then c.hybridSlowStart.Restart
          else c.hybridSlowStart
        hybridSlowStartpp :=
          if c.chosenStartAlgo = StartAlgo.chooseHystartpp then c.hybridSlowStartpp.Restart
          else c.hybridSlowStartpp
        largestSentPacketNumber := InvalidPacketNumber
        largestAckedPacketNumber := InvalidPacketNumber
        largestSentAtLastCutback := InvalidPacketNumber
        lastCutbackExitedSlowstart := false
        cubic := {}
        numAckedPackets := 0
        congestionWindow := c.initialCongestionWindow
        slowStartThreshold := c.initialMaxCongestionWindow } := by
  cases hc : c.chosenStartAlgo <;>
    simp [CubicSender.OnConnectionMigration, Cubic.Reset, hc]

/-- A freshly constructed Sender with 1252-byte datagrams. -/
def migFresh : CubicSender :=
  (NewCubicSender StartAlgo.chooseHystart CongestionAlgo.chooseNewReno 1252 false).1

/-- C3 (counterexample): even a freshly constructed Sender — a reachable
state — is changed by `on_connection_migration`: its slow-start threshold
drops from the maximum byte count to
`MaxCongestionWindowPackets × 1252 = 12520000`, so the migrated state is
not bit-identical to the fresh one. -/
theorem c3_migration_not_bit_identical :
    migFresh.OnConnectionMigration.slowStartThreshold = 12520000 ∧
    migFresh.OnConnectionMigration.slowStartThreshold ≠ migFresh.slowStartThreshold ∧
    migFresh.OnConnectionMigration ≠ migFresh := by
  refine ⟨by decide, by decide, ?_⟩
  intro hcontra
  have := congrArg CubicSender.slowStartThreshold hcontra
  revert this
  decide

/-! ### Claim C6: the NewReno loss response -/

/-- Closed form of `maybeTraceStateChange`: a state is emitted (and
recorded) exactly when a tracer is present and the state changed. -/
theorem maybeTrace_spec (c : CubicSender) (new : CongestionState) :
    c.maybeTraceStateChange new =
      (if c.tracer = true ∧ new ≠ c.lastState then ({ c with lastState := new }, [new])
        else (c, [])) := by
  rw [CubicSender.maybeTraceStateChange]
  by_cases ht : c.tracer = true <;> by_cases hn : new = c.lastState <;>
    simp [ht, hn]

/-- C6 (amended): a NewReno loss outside Low Slow Start with
`pn > largest_sent_at_last_cutback` cuts the window to
`max(trunc(float64(cwnd) * 0.7), 2 × max_datagram_size)` — the product is
computed in binary64 before truncating — sets the threshold to the new
window, records the cutback point and whether slow start was exited,
clears the ack counter, and reports `Recovery` through the deduplicating
trace hook. -/
theorem c6_onPacketLost_newReno (c : CubicSender) (pn : ℤ) (lb pif : ℕ)
    (halgo : c.chosenCongestionAlgo = CongestionAlgo.chooseNewReno)
    (hlss : c.InLowSlowStart = false)
    (hpn : c.largestSentAtLastCutback < pn) :
    (c.OnPacketLost pn lb pif).1.congestionWindow =
      max (truncF (fl (qmul (fl (c.congestionWindow : ℚ)) renoBetaF)))
        (c.maxDatagramSize * minCongestionWindowPackets) ∧
    (c.OnPacketLost pn lb pif).1.slowStartThreshold =
      (c.OnPacketLost pn lb pif).1.congestionWindow ∧
    (c.OnPacketLost pn lb pif).1.largestSentAtLastCutback = c.largestSentPacketNumber ∧
    (c.OnPacketLost pn lb pif).1.numAckedPackets = 0 ∧
    (c.OnPacketLost pn lb pif).1.lastCutbackExitedSlowstart = c.InSlowStart ∧
    (c.OnPacketLost pn lb pif).1.lastState =
      (if c.tracer then CongestionState.recovery else c.lastState) ∧
    (c.OnPacketLost pn lb pif).2 =
      (if c.tracer = true ∧ c.lastState ≠ CongestionState.recovery
        then [CongestionState.recovery] else []) := by
  obtain ⟨hss, hpp, cu, pa, sa, ca, lsp, lap, lcb, lces, cw, sst, nap, icw, imcw, mds,
    ls, tr⟩ := c
  simp only at halgo hlss hpn ⊢
  subst halgo
  rw [CubicSender.OnPacketLost]
  simp only [hlss, Bool.false_eq_true, if_false]
  rw [if_neg (not_le.mpr hpn)]
  rw [maybeTrace_spec]
  simp only [CubicSender.minCongestionWindow, minCongestionWindowPackets,
    CubicSender.InSlowStart, CubicSender.GetCongestionWindow]
  by_cases hcase : tr = true ∧ CongestionState.recovery ≠ ls
  · rw [if_pos hcase]
    obtain ⟨ht, hne⟩ := hcase
    subst ht
    dsimp only
    split <;> rename_i hcut <;>
      exact ⟨by simp; omega, by simp, by simp, by simp, by simp, by simp,
        by simp [Ne.symm hne]⟩
  · rw [if_neg hcase]
    by_cases ht : tr = true
    · have hrec : CongestionState.recovery = ls := by
        by_contra hne
        exact hcase ⟨ht, hne⟩
      subst ht
      dsimp only
      split <;> rename_i hcut <;>
        exact ⟨by simp; omega, by simp, by simp, by simp, by simp, by simp [← hrec],
          by simp [← hrec]⟩
    · have ht' : tr = false := by simpa using ht
      subst ht'
      dsimp only
      split <;> rename_i hcut <;>
        exact ⟨by simp; omega, by simp, by simp, by simp, by simp, by simp, by simp⟩

/-- Event sequence reaching a Sender whose window is 22400 with a cleared
cutback: send, lose, take an RTO without retransmission (which clears
`largest_sent_at_last_cutback`), send again. -/
def c6Ops : List Op :=
  [Op.sent 0 7 1000 true 0, Op.lost 7 0 0, Op.rto false, Op.sent 0 8 1000 true 0]

/-- The reachable pre-loss state of the C6 counterexample. -/
def c6State : CubicSender :=
  (runOps c6Ops (NewCubicSender StartAlgo.chooseSlowStart CongestionAlgo.chooseNewReno
    1000 false).1).1

/-- C6 (counterexample): at the reachable state with `cwnd = 22400`
(NewReno, not in LSS, `pn = 8 > largest_sent_at_last_cutback = -1`), the
code's cut `ByteCount(float64(22400) * 0.7) = 15679` differs from the
claim's `max(⌊22400 × 0.7⌋, 2 × max_datagram_size) = 15680`:
`float64(22400) * 0.7` rounds to `15679.999999999998` and Go truncates
toward zero. -/
theorem c6_floor_vs_float_counterexample :
    c6State.congestionWindow = 22400 ∧
    c6State.chosenCongestionAlgo = CongestionAlgo.chooseNewReno ∧
    c6State.InLowSlowStart = false ∧
    c6State.largestSentAtLastCutback < 8 ∧
    (c6State.OnPacketLost 8 0 0).1.congestionWindow = 15679 ∧
    (c6State.OnPacketLost 8 0 0).1.congestionWindow ≠
      max ((22400 * 7) / 10) (c6State.maxDatagramSize * minCongestionWindowPackets) := by
  refine ⟨by decide, by decide, by decide, by decide, by decide, by decide⟩

/-- The concrete NewReno-loss state of the spec's scenario 2: a fresh
Sender resized to `cwnd = 40000`. -/
def c6WitnessState : CubicSender :=
  { (NewCubicSender StartAlgo.chooseSlowStart CongestionAlgo.chooseNewReno 1000 true).1 with
    congestionWindow := 40000
    slowStartThreshold := 40000
    largestSentPacketNumber := 3 }

theorem c6_onPacketLost_newReno_witness :
    (c6WitnessState.chosenCongestionAlgo = CongestionAlgo.chooseNewReno ∧
     c6WitnessState.InLowSlowStart = false ∧
     c6WitnessState.largestSentAtLastCutback < 4) ∧
    (c6WitnessState.OnPacketLost 4 0 0).1.congestionWindow = 28000 ∧
    (c6WitnessState.OnPacketLost 4 0 0).1.slowStartThreshold = 28000 ∧
    (c6WitnessState.OnPacketLost 4 0 0).2 = [CongestionState.recovery] := by
  have h := c6_onPacketLost_newReno c6WitnessState 4 0 0 (by decide) (by decide) (by decide)
  refine ⟨⟨by decide, by decide, by decide⟩, ?_, ?_, ?_⟩
  · rw [h.1]; decide
  · rw [h.2.1, h.1]; decide
  · rw [h.2.2.2.2.2.2]; decide

/-! ### Claim C5: loss idempotence -/

set_option maxHeartbeats 2000000 in
theorem onPacketLost_no_lss (c : CubicSender) (pn : ℤ) (lb pif : ℕ) :
    (c.OnPacketLost pn lb pif).1.InLowSlowStart = false := by
  obtain ⟨hss, hpp, cu, pa, sa, ca, lsp, lap, lcb, lces, cw, sst, nap, icw, imcw, mds,
    ls, tr⟩ := c
  obtain ⟨ppe, ppl, pps, ppc, ppr, ppn, ppi⟩ := hpp
  rw [CubicSender.OnPacketLost]
  dsimp only [CubicSender.InLowSlowStart, HybridSlowStartpp.IsInLSS,
    HybridSlowStartpp.QuitLSS]
  cases sa <;> cases ppi <;> cases ca <;>
    (try dsimp only [decide_eq_true_eq]) <;>
    (try dsimp only [CubicSender.maybeTraceStateChange]) <;>
    (repeat' split) <;>
      simp_all [CubicSender.InLowSlowStart, HybridSlowStartpp.IsInLSS]

set_option maxHeartbeats 2000000 in
theorem onPacketLost_cutback (c : CubicSender) (pn : ℤ) (lb pif : ℕ)
    (h : pn ≤ c.largestSentPacketNumber) :
    pn ≤ (c.OnPacketLost pn lb pif).1.largestSentAtLastCutback := by
  obtain ⟨hss, hpp, cu, pa, sa, ca, lsp, lap, lcb, lces, cw, sst, nap, icw, imcw, mds,
    ls, tr⟩ := c
  obtain ⟨ppe, ppl, pps, ppc, ppr, ppn, ppi⟩ := hpp
  simp only at h
  rw [CubicSender.OnPacketLost]
  dsimp only [CubicSender.InLowSlowStart, HybridSlowStartpp.IsInLSS,
    HybridSlowStartpp.QuitLSS]
  cases sa <;> cases ppi <;> cases ca <;>
    (try dsimp only [decide_eq_true_eq]) <;>
    (try dsimp only [CubicSender.maybeTraceStateChange]) <;>
    (repeat' split) <;>
      (try simp_all) <;> omega

theorem onPacketLost_guarded (c : CubicSender) (pn : ℤ) (lb pif : ℕ)
    (hlss : c.InLowSlowStart = false)
    (hg : pn ≤ c.largestSentAtLastCutback) :
    c.OnPacketLost pn lb pif = (c, []) := by
  rw [CubicSender.OnPacketLost]
  simp only [hlss, Bool.false_eq_true, if_false]
  cases halgo : c.chosenCongestionAlgo <;> simp [halgo, hg]

/-- C5 (amended): for any Sender state and a packet number that has
actually been sent (`pn ≤ largest_sent`, the ordering §5 guarantees),
calling `on_packet_lost` twice in immediate succession leaves the same
post-state as one call and emits nothing further — the second call is a
no-op: it cannot be in Low Slow Start (the first call clears it on that
path) and the cutback guard `pn ≤ largest_sent_at_last_cutback` holds. -/
theorem c5_onPacketLost_idempotent (c : CubicSender) (pn : ℤ) (lb pif : ℕ)
    (h : pn ≤ c.largestSentPacketNumber) :
    (c.OnPacketLost pn lb pif).1.OnPacketLost pn lb pif =
      ((c.OnPacketLost pn lb pif).1, []) :=
  onPacketLost_guarded _ _ _ _ (onPacketLost_no_lss c pn lb pif)
    (onPacketLost_cutback c pn lb pif h)

/-- The fresh Sender of C5's counterexample. -/
def c5Fresh : CubicSender :=
  (NewCubicSender StartAlgo.chooseSlowStart CongestionAlgo.chooseNewReno 1000 false).1

/-- C5 (counterexample): on a freshly constructed (hence reachable) Sender,
losing the never-sent packet 5 twice is not the same as losing it once:
`largest_sent` is still the invalid `-1`, so the first call records
`largest_sent_at_last_cutback = -1 < 5` and the guard does not stop the
second call, which cuts the window again (22400 → 15679). -/
theorem c5_double_loss_differs :
    (c5Fresh.OnPacketLost 5 0 0).1.congestionWindow = 22400 ∧
    ((c5Fresh.OnPacketLost 5 0 0).1.OnPacketLost 5 0 0).1.congestionWindow = 15679 ∧
    ((c5Fresh.OnPacketLost 5 0 0).1.OnPacketLost 5 0 0).1 ≠ (c5Fresh.OnPacketLost 5 0 0).1 := by
  refine ⟨by decide, by decide, by decide⟩

theorem c5_onPacketLost_idempotent_witness :
    ((8:ℤ) ≤ c6State.largestSentPacketNumber) ∧
    (c6State.OnPacketLost 8 0 0).1.OnPacketLost 8 0 0 =
      ((c6State.OnPacketLost 8 0 0).1, []) :=
  ⟨by decide, c5_onPacketLost_idempotent c6State 8 0 0 (by decide)⟩

/-! ### Claim C9: the trace never repeats a state -/

/-- The state a trace leaves the `lastState` register in: the last emitted
state, or the starting value if nothing was emitted. -/
def lastEmit (d : CongestionState) (tr : List CongestionState) : CongestionState :=
  tr.foldl (fun _ x => x) d

theorem lastEmit_nil (d : CongestionState) : lastEmit d [] = d := rfl

theorem lastEmit_cons (d x : CongestionState) (tr : List CongestionState) :
    lastEmit d (x :: tr) = lastEmit x tr := rfl

theorem lastEmit_append (d : CongestionState) (tr1 tr2 : List CongestionState) :
    lastEmit d (tr1 ++ tr2) = lastEmit (lastEmit d tr1) tr2 := by
  induction tr1 generalizing d with
  | nil => rfl
  | cons x xs ih => rw [List.cons_append, lastEmit_cons, lastEmit_cons, ih]

/-- One event's trace behaviour when a tracer is attached: no emitted state
repeats its predecessor (starting from the pre-state's `lastState`) and
`lastState` ends at the last emission. -/
def TraceOK (d : CongestionState) (tr : List CongestionState)
    (d' : CongestionState) : Prop :=
  List.Chain' (fun a b => a ≠ b) (d :: tr) ∧ d' = lastEmit d tr

theorem traceOK_nil (d : CongestionState) : TraceOK d [] d :=
  ⟨by simp, rfl⟩

theorem chain_lastEmit_append (d : CongestionState) (tr1 tr2 : List CongestionState)
    (h1 : List.Chain' (fun a b => a ≠ b) (d :: tr1))
    (h2 : List.Chain' (fun a b => a ≠ b) (lastEmit d tr1 :: tr2)) :
    List.Chain' (fun a b => a ≠ b) (d :: (tr1 ++ tr2)) := by
  induction tr1 generalizing d with
  | nil => simpa using h2
  | cons x xs ih =>
    rw [lastEmit_cons] at h2
    rw [List.cons_append]
    rw [List.chain'_cons] at h1 ⊢
    exact ⟨h1.1, ih x h1.2 h2⟩

theorem traceOK_comp (d e f : CongestionState) (tr1 tr2 : List CongestionState)
    (h1 : TraceOK d tr1 e) (h2 : TraceOK e tr2 f) :
    TraceOK d (tr1 ++ tr2) f := by
  obtain ⟨ha, hb⟩ := h1
  obtain ⟨hc, hd⟩ := h2
  subst hb
  refine ⟨chain_lastEmit_append d tr1 tr2 ha hc, ?_⟩
  rw [lastEmit_append]
  exact hd

theorem maybeTrace_stepOK (c : CubicSender) (new : CongestionState)
    (ht : c.tracer = true) :
    (c.maybeTraceStateChange new).1.tracer = true ∧
    TraceOK c.lastState (c.maybeTraceStateChange new).2
      (c.maybeTraceStateChange new).1.lastState := by
  rw [maybeTrace_spec]
  by_cases hcase : c.tracer = true ∧ new ≠ c.lastState
  · rw [if_pos hcase]
    exact ⟨ht, by simp [Ne.symm hcase.2], rfl⟩
  · rw [if_neg hcase]
    exact ⟨ht, traceOK_nil _⟩

theorem maybeIncreaseCwnd_stepOK (c : CubicSender) (ab pif : ℕ) (t : ℚ) (mr : ℤ)
    (ht : c.tracer = true) :
    (c.maybeIncreaseCwnd ab pif t mr).1.tracer = true ∧
    TraceOK c.lastState (c.maybeIncreaseCwnd ab pif t mr).2
      (c.maybeIncreaseCwnd ab pif t mr).1.lastState := by
  rw [CubicSender.maybeIncreaseCwnd]
  dsimp only
  split
  · exact maybeTrace_stepOK _ _ ht
  · split
    · exact ⟨ht, traceOK_nil _⟩
    · split
      · have h := maybeTrace_stepOK c CongestionState.slowStart ht
        (repeat' split) <;> exact ⟨h.1, h.2⟩
      · split
        · have h := maybeTrace_stepOK c CongestionState.lowSlowStart ht
          (repeat' split) <;> exact ⟨h.1, h.2⟩
        · have h := maybeTrace_stepOK c CongestionState.congestionAvoidance ht
          (repeat' split) <;> exact ⟨h.1, h.2⟩

theorem onPacketAcked_stepOK (c : CubicSender) (pn : ℤ) (ab pif : ℕ) (t : ℚ) (mr : ℤ)
    (ht : c.tracer = true) :
    (c.OnPacketAcked pn ab pif t mr).1.tracer = true ∧
    TraceOK c.lastState (c.OnPacketAcked pn ab pif t mr).2
      (c.OnPacketAcked pn ab pif t mr).1.lastState := by
  rw [CubicSender.OnPacketAcked]
  dsimp only
  split
  · exact ⟨ht, traceOK_nil _⟩
  · have h := maybeIncreaseCwnd_stepOK
      { c with largestAckedPacketNumber := max pn c.largestAckedPacketNumber }
      ab pif t mr ht
    (repeat' split) <;> exact ⟨h.1, h.2⟩

set_option maxHeartbeats 4000000 in
theorem onPacketLost_stepOK (c : CubicSender) (pn : ℤ) (lb pif : ℕ)
    (ht : c.tracer = true) :
    (c.OnPacketLost pn lb pif).1.tracer = true ∧
    TraceOK c.lastState (c.OnPacketLost pn lb pif).2
      (c.OnPacketLost pn lb pif).1.lastState := by
  obtain ⟨hss, hpp, cu, pa, sa, ca, lsp, lap, lcb, lces, cw, sst, nap, icw, imcw, mds,
    ls, tr⟩ := c
  obtain ⟨ppe, ppl, pps, ppc, ppr, ppn, ppi⟩ := hpp
  simp only at ht
  subst ht
  rw [CubicSender.OnPacketLost]
  dsimp only [CubicSender.InLowSlowStart, HybridSlowStartpp.IsInLSS,
    HybridSlowStartpp.QuitLSS]
  cases sa <;> cases ppi <;> cases ca <;>
    (try dsimp only [decide_eq_true_eq]) <;>
    (try dsimp only [CubicSender.maybeTraceStateChange]) <;>
    (repeat' split) <;>
      simp_all [TraceOK, lastEmit, ne_comm]

theorem maybeExitSlowStart_stepOK (c : CubicSender) (l m : ℤ)
    (ht : c.tracer = true) :
    (c.MaybeExitSlowStart l m).1.tracer = true ∧
    TraceOK c.lastState (c.MaybeExitSlowStart l m).2
      (c.MaybeExitSlowStart l m).1.lastState := by
  rw [CubicSender.MaybeExitSlowStart]
  dsimp only
  split
  · split
    · exact ⟨ht, traceOK_nil _⟩
    · split
      · exact maybeTrace_stepOK _ _ ht
      · exact ⟨ht, traceOK_nil _⟩
    · split
      · exact maybeTrace_stepOK _ _ ht
      · exact ⟨ht, traceOK_nil _⟩
  · exact ⟨ht, traceOK_nil _⟩

theorem onPacketSent_preserves (c : CubicSender) (t : ℚ) (pn : ℤ) (b : ℕ)
    (r : Bool) (srtt : ℤ) :
    (c.OnPacketSent t pn b r srtt).tracer = c.tracer ∧
    (c.OnPacketSent t pn b r srtt).lastState = c.lastState := by
  rw [CubicSender.OnPacketSent]
  dsimp only
  split
  · exact ⟨rfl, rfl⟩
  · (repeat' split) <;> exact ⟨rfl, rfl⟩

theorem onRTO_preserves (c : CubicSender) (b : Bool) :
    (c.OnRetransmissionTimeout b).tracer = c.tracer ∧
    (c.OnRetransmissionTimeout b).lastState = c.lastState := by
  rw [CubicSender.OnRetransmissionTimeout]
  dsimp only
  split
  · exact ⟨rfl, rfl⟩
  · (repeat' split) <;> exact ⟨rfl, rfl⟩

theorem onMigration_preserves (c : CubicSender) :
    c.OnConnectionMigration.tracer = c.tracer ∧
    c.OnConnectionMigration.lastState = c.lastState := by
  rw [CubicSender.OnConnectionMigration]
  try dsimp only
  (repeat' split) <;> exact ⟨rfl, rfl⟩

theorem setMDS_preserves (c : CubicSender) (s : ℕ) (c2 : CubicSender)
    (h : c.SetMaxDatagramSize s = some c2) :
    c2.tracer = c.tracer ∧ c2.lastState = c.lastState := by
  rw [CubicSender.SetMaxDatagramSize] at h
  dsimp only at h
  split at h
  · exact Option.noConfusion h
  · split at h <;>
      · rw [Option.some_inj] at h
        subst h
        exact ⟨rfl, rfl⟩

theorem step_stepOK (op : Op) (c : CubicSender)
    (pr : CubicSender × List CongestionState) (ht : c.tracer = true)
    (h : step op c = some pr) :
    pr.1.tracer = true ∧ TraceOK c.lastState pr.2 pr.1.lastState := by
  cases op with
  | sent t pn b r srtt =>
    simp only [step, Option.some_inj] at h
    subst h
    obtain ⟨hp1, hp2⟩ := onPacketSent_preserves c t pn b r srtt
    refine ⟨?_, ?_⟩
    · dsimp only
      rw [hp1]
      exact ht
    · dsimp only
      rw [hp2]
      exact traceOK_nil _
  | acked pn ab pif t mr =>
    simp only [step, Option.some_inj] at h
    subst h
    exact onPacketAcked_stepOK c pn ab pif t mr ht
  | lost pn lb pif =>
    simp only [step, Option.some_inj] at h
    subst h
    exact onPacketLost_stepOK c pn lb pif ht
  | rto b =>
    simp only [step, Option.some_inj] at h
    subst h
    obtain ⟨hp1, hp2⟩ := onRTO_preserves c b
    refine ⟨?_, ?_⟩
    · dsimp only
      rw [hp1]
      exact ht
    · dsimp only
      rw [hp2]
      exact traceOK_nil _
  | migrate =>
    simp only [step, Option.some_inj] at h
    subst h
    obtain ⟨hp1, hp2⟩ := onMigration_preserves c
    refine ⟨?_, ?_⟩
    · dsimp only
      rw [hp1]
      exact ht
    · dsimp only
      rw [hp2]
      exact traceOK_nil _
  | maybeExit l m =>
    simp only [step, Option.some_inj] at h
    subst h
    exact maybeExitSlowStart_stepOK c l m ht
  | setMDS s =>
    simp only [step] at h
    cases hm : c.SetMaxDatagramSize s with
    | none =>
      rw [hm] at h
      simp only [Option.map] at h
      exact Option.noConfusion h
    | some c2 =>
      rw [hm] at h
      simp only [Option.map, Option.some_inj] at h
      subst h
      obtain ⟨hp1, hp2⟩ := setMDS_preserves c s c2 hm
      refine ⟨?_, ?_⟩
      · dsimp only
        rw [hp1]
        exact ht
      · dsimp only
        rw [hp2]
        exact traceOK_nil _

theorem runOps_stepOK (ops : List Op) (c : CubicSender) (ht : c.tracer = true) :
    (runOps ops c).1.tracer = true ∧
    TraceOK c.lastState (runOps ops c).2 (runOps ops c).1.lastState := by
  induction ops generalizing c with
  | nil =>
    rw [runOps]
    exact ⟨ht, traceOK_nil _⟩
  | cons op rest ih =>
    rw [runOps]
    cases hstep : step op c with
    | none => exact ⟨ht, traceOK_nil _⟩
    | some r =>
      obtain ⟨h1, h2⟩ := step_stepOK op c r ht hstep
      obtain ⟨h3, h4⟩ := ih r.1 h1
      dsimp only
      exact ⟨h3, traceOK_comp c.lastState r.1.lastState
        (runOps rest r.1).1.lastState r.2 (runOps rest r.1).2 h2 h4⟩

/-- C9: with a tracer attached, for every event sequence the full stream of
congestion states handed to the tracer (the construction's emission
included) starts with `SlowStart`, and no emission repeats the immediately
preceding one. -/
theorem c9_trace_no_repeats (sa : StartAlgo) (ca : CongestionAlgo)
    (mds icw imcw : ℕ) (ops : List Op) :
    (newCubicSender sa ca mds icw imcw true).2 ++
        (runOps ops (newCubicSender sa ca mds icw imcw true).1).2 =
      CongestionState.slowStart ::
        (runOps ops (newCubicSender sa ca mds icw imcw true).1).2 ∧
    List.Chain' (fun a b => a ≠ b)
      (CongestionState.slowStart ::
        (runOps ops (newCubicSender sa ca mds icw imcw true).1).2) := by
  refine ⟨rfl, ?_⟩
  exact (runOps_stepOK ops (newCubicSender sa ca mds icw imcw true).1 rfl).2.1

/-! ### Claim C8: classic slow start never self-exits -/

/-- Events allowed by C8: acks and slow-start exit checks only. -/
def ackOnly : Op → Bool
  | Op.acked _ _ _ _ _ => true
  | Op.maybeExit _ _ => true
  | _ => false

/-- Invariant for C8: the classic start algorithm is selected, the slow-start
threshold still sits at the maximum byte count, the datagram size is the
construction value, and the window leaves room below the threshold even
after one more per-ack increment. -/
def C8Inv (mds0 : ℕ) (c : CubicSender) : Prop :=
  c.chosenStartAlgo = StartAlgo.chooseSlowStart ∧
  c.slowStartThreshold = MaxByteCount ∧
  c.maxDatagramSize = mds0 ∧
  c.congestionWindow ≤ 10001 * mds0 - 1

theorem maybeExit_classic (c : CubicSender)
    (hsa : c.chosenStartAlgo = StartAlgo.chooseSlowStart) (l m : ℤ) :
    c.MaybeExitSlowStart l m = (c, []) := by
  rw [CubicSender.MaybeExitSlowStart, hsa]
  split <;> rfl

theorem maybeTrace_fields (c : CubicSender) (new : CongestionState) :
    (c.maybeTraceStateChange new).1.chosenStartAlgo = c.chosenStartAlgo ∧
    (c.maybeTraceStateChange new).1.slowStartThreshold = c.slowStartThreshold ∧
    (c.maybeTraceStateChange new).1.maxDatagramSize = c.maxDatagramSize ∧
    (c.maybeTraceStateChange new).1.congestionWindow = c.congestionWindow ∧
    (c.maybeTraceStateChange new).1.chosenCongestionAlgo = c.chosenCongestionAlgo := by
  rw [maybeTrace_spec]
  split <;> exact ⟨rfl, rfl, rfl, rfl, rfl⟩

theorem c8Inv_maybeIncrease (mds0 : ℕ) (hm : 0 < mds0)
    (hbig : 10001 * mds0 ≤ MaxByteCount) (c : CubicSender) (hInv : C8Inv mds0 c)
    (ab pif : ℕ) (t : ℚ) (mr : ℤ) :
    C8Inv mds0 (c.maybeIncreaseCwnd ab pif t mr).1 := by
  obtain ⟨hsa, hsst, hmds, hcw⟩ := hInv
  rw [CubicSender.maybeIncreaseCwnd]
  dsimp only
  split
  · obtain ⟨f1, f2, f3, f4, f5⟩ :=
      maybeTrace_fields { c with cubic := c.cubic.OnApplicationLimited }
        CongestionState.applicationLimited
    exact ⟨by rw [f1]; exact hsa, by rw [f2]; exact hsst,
      by rw [f3]; exact hmds, by rw [f4]; exact hcw⟩
  · split
    · exact ⟨hsa, hsst, hmds, hcw⟩
    · split
      · rename_i hmax hslow
        have hlt : c.congestionWindow < mds0 * 10000 := by
          rw [CubicSender.maxCongestionWindow, hmds, MaxCongestionWindowPackets] at hmax
          omega
        obtain ⟨f1, f2, f3, f4, f5⟩ := maybeTrace_fields c CongestionState.slowStart
        split
        · dsimp only
          refine ⟨?_, ?_, ?_, ?_⟩
          · dsimp only
            rw [f1]
            exact hsa
          · dsimp only
            rw [f2]
            exact hsst
          · dsimp only
            rw [f3]
            exact hmds
          · dsimp only
            rw [f4, f3, hmds]
            omega
        · rename_i harm
          rw [f1, hsa] at harm
          exact StartAlgo.noConfusion harm
        · rename_i harm
          rw [f1, hsa] at harm
          exact StartAlgo.noConfusion harm
      · split
        · rename_i hlss
          rw [CubicSender.InLowSlowStart, hsa] at hlss
          simp at hlss
        · rename_i hns hlssn
          rw [CubicSender.InSlowStart, CubicSender.GetCongestionWindow, hsst] at hns
          simp only [decide_eq_true_eq] at hns
          exact absurd (show c.congestionWindow < MaxByteCount by omega) hns

theorem c8Inv_acked (mds0 : ℕ) (hm : 0 < mds0) (hbig : 10001 * mds0 ≤ MaxByteCount)
    (c : CubicSender) (hInv : C8Inv mds0 c) (pn : ℤ) (ab pif : ℕ) (t : ℚ) (mr : ℤ) :
    C8Inv mds0 (c.OnPacketAcked pn ab pif t mr).1 := by
  obtain ⟨hsa, hsst, hmds, hcw⟩ := hInv
  rw [CubicSender.OnPacketAcked]
  dsimp only
  split
  · exact ⟨hsa, hsst, hmds, hcw⟩
  · have hInv1 :
        C8Inv mds0 { c with largestAckedPacketNumber := max pn c.largestAckedPacketNumber } :=
      ⟨hsa, hsst, hmds, hcw⟩
    obtain ⟨g1, g2, g3, g4⟩ := c8Inv_maybeIncrease mds0 hm hbig _ hInv1 ab pif t mr
    (repeat' split) <;> exact ⟨g1, g2, g3, g4⟩

theorem c8Run (mds0 : ℕ) (hm : 0 < mds0) (hbig : 10001 * mds0 ≤ MaxByteCount) :
    ∀ (ops : List Op) (c : CubicSender), (∀ op ∈ ops, ackOnly op = true) →
      C8Inv mds0 c → C8Inv mds0 (runOps ops c).1 := by
  intro ops
  induction ops with
  | nil =>
    intro c _ hInv
    exact hInv
  | cons op rest ih =>
    intro c hops hInv
    have hop : ackOnly op = true := hops op (List.mem_cons_self op rest)
    have hrest : ∀ o ∈ rest, ackOnly o = true :=
      fun o ho => hops o (List.mem_cons_of_mem op ho)
    rw [runOps]
    cases op with
    | acked pn ab pif t mr =>
      dsimp only [step]
      exact ih _ hrest (c8Inv_acked mds0 hm hbig c hInv pn ab pif t mr)
    | maybeExit l m =>
      dsimp only [step]
      rw [maybeExit_classic c hInv.1 l m]
      exact ih c hrest hInv
    | sent t pn b r srtt => simp [ackOnly] at hop
    | lost pn lb pif => simp [ackOnly] at hop
    | rto b => simp [ackOnly] at hop
    | migrate => simp [ackOnly] at hop
    | setMDS s => simp [ackOnly] at hop

/-- C8: with the classic slow-start variant and only ack-driven events
(`on_packet_acked` and `maybe_exit_slow_start`; no losses or timeouts), the
Sender stays in slow start forever: the classic variant never signals an
exit and per-ack growth never reaches the slow-start threshold, which stays
at the maximum byte count. -/
theorem c8_classic_never_exits (ca : CongestionAlgo) (mds0 : ℕ) (tracerOn : Bool)
    (ops : List Op) (hm : 0 < mds0) (hbig : 10001 * mds0 ≤ MaxByteCount)
    (hops : ∀ op ∈ ops, ackOnly op = true) :
    (runOps ops
        (NewCubicSender StartAlgo.chooseSlowStart ca mds0 tracerOn).1).1.InSlowStart
      = true ∧
    (runOps ops
        (NewCubicSender StartAlgo.chooseSlowStart ca mds0 tracerOn).1).1.slowStartThreshold
      = MaxByteCount := by
  have h0 : C8Inv mds0 (NewCubicSender StartAlgo.chooseSlowStart ca mds0 tracerOn).1 := by
    refine ⟨rfl, rfl, rfl, ?_⟩
    show initialCongestionWindowPackets * mds0 ≤ 10001 * mds0 - 1
    simp only [initialCongestionWindowPackets]
    omega
  obtain ⟨hsa, hsst, hmds, hcw⟩ :=
    c8Run mds0 hm hbig ops (NewCubicSender StartAlgo.chooseSlowStart ca mds0 tracerOn).1
      hops h0
  refine ⟨?_, hsst⟩
  rw [CubicSender.InSlowStart, CubicSender.GetCongestionWindow, hsst]
  simp only [decide_eq_true_eq]
  omega

/-- Events for the C8 witness: two acks around a classic exit check. -/
def c8WitnessOps : List Op :=
  [Op.acked 1 1200 5000 0 0, Op.maybeExit 1000000 0, Op.acked 2 1200 5000 0 0]

theorem c8_classic_never_exits_witness :
    (0 < 1200 ∧ 10001 * 1200 ≤ MaxByteCount ∧
      ∀ op ∈ c8WitnessOps, ackOnly op = true) ∧
    ((runOps c8WitnessOps
        (NewCubicSender StartAlgo.chooseSlowStart CongestionAlgo.chooseNewReno 1200
          true).1).1.InSlowStart = true ∧
     (runOps c8WitnessOps
        (NewCubicSender StartAlgo.chooseSlowStart CongestionAlgo.chooseNewReno 1200
          true).1).1.slowStartThreshold = MaxByteCount) :=
  ⟨⟨by decide, by decide, by decide⟩,
    c8_classic_never_exits CongestionAlgo.chooseNewReno 1200 true c8WitnessOps
      (by decide) (by decide) (by decide)⟩

/-! ### Claim C4: congestion-window bounds -/

/-- Events of the C4 counterexample: seven send/lose rounds shrink the
window to 2634 bytes, then the datagram size legally grows to 1500. -/
def c4Ops : List Op :=
  [Op.sent 0 1 1000 true 0, Op.lost 1 0 0,
   Op.sent 0 2 1000 true 0, Op.lost 2 0 0,
   Op.sent 0 3 1000 true 0, Op.lost 3 0 0,
   Op.sent 0 4 1000 true 0, Op.lost 4 0 0,
   Op.sent 0 5 1000 true 0, Op.lost 5 0 0,
   Op.sent 0 6 1000 true 0, Op.lost 6 0 0,
   Op.sent 0 7 1000 true 0, Op.lost 7 0 0,
   Op.setMDS 1500]

/-- C4 (counterexample): a non-decreasing `set_max_datagram_size` breaks the
lower window invariant.  Seven NewReno cuts from a fresh Sender (datagram
size 1000) leave the window at 2634 bytes; raising the datagram size to 1500
is legal (no panic) and leaves the window untouched because it did not sit
exactly at the old minimum, so afterwards
`congestion_window = 2634 < 3000 = 2 × max_datagram_size`. -/
theorem c4_setMDS_breaks_min_cwnd :
    (runOps c4Ops (NewCubicSender StartAlgo.chooseSlowStart
        CongestionAlgo.chooseNewReno 1000 false).1).1.maxDatagramSize = 1500 ∧
    (runOps c4Ops (NewCubicSender StartAlgo.chooseSlowStart
        CongestionAlgo.chooseNewReno 1000 false).1).1.congestionWindow = 2634 ∧
    ¬(2 * (runOps c4Ops (NewCubicSender StartAlgo.chooseSlowStart
          CongestionAlgo.chooseNewReno 1000 false).1).1.maxDatagramSize ≤
        (runOps c4Ops (NewCubicSender StartAlgo.chooseSlowStart
          CongestionAlgo.chooseNewReno 1000 false).1).1.congestionWindow) := by
  decide

/-! Truncation and rounding bounds used for the amended window invariant. -/

theorem le_truncF (n : ℕ) (q : ℚ) (h : (n : ℚ) ≤ q) : n ≤ truncF q := by
  rw [truncF]
  have h1 : (n : ℤ) ≤ ⌊q⌋ := Int.le_floor.mpr (by exact_mod_cast h)
  omega

theorem truncF_le_nat (q : ℚ) (n : ℕ) (h : q ≤ (n : ℚ)) : truncF q ≤ n := by
  rw [truncF]
  have h1 : ⌊q⌋ ≤ ⌊(n : ℚ)⌋ := Int.floor_le_floor h
  rw [Int.floor_natCast] at h1
  omega

theorem truncF_lt_nat (q : ℚ) (n : ℕ) (h : q < (n : ℚ) + 1) : truncF q ≤ n := by
  rw [truncF]
  have h1 : ⌊q⌋ < (n : ℤ) + 1 := by
    rw [Int.floor_lt]
    push_cast
    exact h
  omega

theorem cast_lt_pow2_1074 (n : ℕ) (h : n ≤ 2 ^ 80) : (n : ℚ) < pow2 1074 := by
  have h1 : (n : ℚ) ≤ ((2 ^ 80 : ℕ) : ℚ) := by exact_mod_cast h
  have h2 : ((2 ^ 80 : ℕ) : ℚ) = mkRat (2 ^ 80) 1 := by
    rw [mkRat_div]
    push_cast
    norm_num
  have h3 : (mkRat (2 ^ 80) 1 : ℚ) < pow2 1074 := by decide
  rw [h2] at h1
  linarith

/-- The NewReno loss cut never exceeds the old window: the float64 product
with `renoBeta` stays below `0.7171 × (1 + 2^-53) × cwnd < cwnd`. -/
theorem renoCut_le (cw : ℕ) (h2 : 2 ≤ cw) (hhi : (cw : ℚ) < pow2 1074) :
    truncF (fl (qmul (fl (cw : ℚ)) renoBetaF)) ≤ cw := by
  have hβub : renoBetaF ≤ mkRat 71 100 := by decide
  have hβlb : mkRat 1 2 ≤ renoBetaF := by decide
  have hβq : (mkRat 71 100 : ℚ) = 71/100 := by rw [mkRat_div]; norm_num
  have hhalfq : (mkRat 1 2 : ℚ) = 1/2 := by rw [mkRat_div]; norm_num
  have hβ71 : renoBetaF ≤ (71:ℚ)/100 := hβq ▸ hβub
  have hβhalf : (1:ℚ)/2 ≤ renoBetaF := hhalfq ▸ hβlb
  have hpow : pow2 (-53) ≤ (1:ℚ)/100 := by
    rw [show (1:ℚ)/100 = mkRat 1 100 by rw [mkRat_div]; norm_num]
    decide
  have hcq2 : (2:ℚ) ≤ (cw : ℚ) := by exact_mod_cast h2
  have hcq : (1:ℚ)/2 ≤ (cw : ℚ) := by linarith
  have hcpos : (0:ℚ) < (cw : ℚ) := by linarith
  have hAub := fl_le (cw : ℚ) hcq hhi
  have hAlb := fl_ge (cw : ℚ) hcq hhi
  have hp1 : (cw : ℚ) * pow2 (-53) ≤ (cw : ℚ) * (1/100) :=
    mul_le_mul_of_nonneg_left hpow hcpos.le
  have hpnn : (0:ℚ) ≤ (cw : ℚ) * pow2 (-53) :=
    mul_nonneg hcpos.le (pow2_pos _).le
  have hA1 : fl (cw : ℚ) ≤ (cw : ℚ) * (101/100) := by linarith
  have hA198 : (198:ℚ)/100 ≤ fl (cw : ℚ) := by linarith
  have hzeq : qmul (fl (cw : ℚ)) renoBetaF = fl (cw : ℚ) * renoBetaF := qmul_eq _ _
  have hzub : fl (cw : ℚ) * renoBetaF ≤ ((cw : ℚ) * (101/100)) * (71/100) :=
    mul_le_mul hA1 hβ71 (by linarith) (by positivity)
  have hzlb : (1:ℚ)/2 ≤ fl (cw : ℚ) * renoBetaF := by
    have h := mul_le_mul hA198 hβhalf (by norm_num) (by linarith)
    linarith
  have hzhi : fl (cw : ℚ) * renoBetaF < pow2 1074 := by linarith
  rw [hzeq]
  have hfz := fl_le (fl (cw : ℚ) * renoBetaF) hzlb hzhi
  have hzpos : (0:ℚ) < fl (cw : ℚ) * renoBetaF := by linarith
  have hp2 : (fl (cw : ℚ) * renoBetaF) * pow2 (-53)
      ≤ (fl (cw : ℚ) * renoBetaF) * (1/100) :=
    mul_le_mul_of_nonneg_left hpow hzpos.le
  have hfz2 : fl (fl (cw : ℚ) * renoBetaF) ≤ (cw : ℚ) := by linarith
  exact truncF_le_nat _ cw hfz2

/-- Appropriate-byte-counting growth is at most two datagrams: the float64
computation of `min(acked, 2 × mds)` stays below `2 × mds + 1`. -/
theorem abcGrowth_le (ab mds0 : ℕ) (hm : 0 < mds0) (hsz : mds0 ≤ 2 ^ 50) :
    truncF (min (fl (ab : ℚ)) (fl (qmul 2 (fl (mds0 : ℚ))))) ≤ 2 * mds0 := by
  have hm1 : (1:ℚ) ≤ (mds0 : ℚ) := by exact_mod_cast hm
  have hhalf : (1:ℚ)/2 ≤ (mds0 : ℚ) := by linarith
  have hmpos : (0:ℚ) < (mds0 : ℚ) := by linarith
  have hhi : (mds0 : ℚ) < pow2 1074 :=
    cast_lt_pow2_1074 mds0 (le_trans hsz (by norm_num))
  have hpow : pow2 (-53) ≤ (1:ℚ)/100 := by
    rw [show (1:ℚ)/100 = mkRat 1 100 by rw [mkRat_div]; norm_num]
    decide
  have hpnn : (0:ℚ) ≤ pow2 (-53) := (pow2_pos _).le
  have hAub := fl_le (mds0 : ℚ) hhalf hhi
  have hAlb := fl_ge (mds0 : ℚ) hhalf hhi
  have hp1 : (mds0 : ℚ) * pow2 (-53) ≤ (mds0 : ℚ) * (1/100) :=
    mul_le_mul_of_nonneg_left hpow hmpos.le
  have hmpnn : (0:ℚ) ≤ (mds0 : ℚ) * pow2 (-53) := mul_nonneg hmpos.le hpnn
  have hBhalf : (1:ℚ)/2 ≤ 2 * fl (mds0 : ℚ) := by linarith
  have hBub : 2 * fl (mds0 : ℚ) ≤ 2*(mds0 : ℚ) + 2*((mds0 : ℚ) * pow2 (-53)) := by
    linarith
  have hc50 : ((2 ^ 50 : ℕ) : ℚ) = mkRat (2 ^ 50) 1 := by
    rw [mkRat_div]
    push_cast
    norm_num
  have hmQ : (mds0 : ℚ) ≤ ((2 ^ 50 : ℕ) : ℚ) := by exact_mod_cast hsz
  have hq18 : qmul (mkRat (2 ^ 50) 1) (pow2 (-53)) ≤ mkRat 1 8 := by decide
  have h18q : (mkRat 1 8 : ℚ) = 1/8 := by rw [mkRat_div]; norm_num
  have hmp : (mds0 : ℚ) * pow2 (-53) ≤ (1:ℚ)/8 := by
    have h1 : (mds0 : ℚ) * pow2 (-53) ≤ ((2 ^ 50 : ℕ) : ℚ) * pow2 (-53) :=
      mul_le_mul_of_nonneg_right hmQ hpnn
    have h2 : ((2 ^ 50 : ℕ) : ℚ) * pow2 (-53) ≤ (1:ℚ)/8 := by
      rw [hc50, ← qmul_eq, ← h18q]
      exact hq18
    exact le_trans h1 h2
  have hmpp : ((mds0 : ℚ) * pow2 (-53)) * pow2 (-53) ≤ ((1:ℚ)/8) * (1/100) :=
    mul_le_mul hmp hpow hpnn (by norm_num)
  have hBhi : 2 * fl (mds0 : ℚ) < pow2 1074 := by
    have h3 : 2 * fl (mds0 : ℚ) ≤ 3 * (mds0 : ℚ) := by linarith
    have hlt := cast_lt_pow2_1074 (3 * 2 ^ 50) (by norm_num)
    have hc3 : ((3 * mds0 : ℕ) : ℚ) ≤ ((3 * 2 ^ 50 : ℕ) : ℚ) := by
      exact_mod_cast Nat.mul_le_mul_left 3 hsz
    have heq3 : ((3 * mds0 : ℕ) : ℚ) = 3 * (mds0 : ℚ) := by push_cast; ring
    rw [heq3] at hc3
    calc 2 * fl (mds0 : ℚ) ≤ 3 * (mds0 : ℚ) := h3
      _ ≤ ((3 * 2 ^ 50 : ℕ) : ℚ) := hc3
      _ < pow2 1074 := hlt
  have hfB := fl_le (2 * fl (mds0 : ℚ)) hBhalf hBhi
  have hscaled : (2 * fl (mds0 : ℚ)) * pow2 (-53)
      ≤ (2*(mds0 : ℚ) + 2*((mds0 : ℚ) * pow2 (-53))) * pow2 (-53) :=
    mul_le_mul_of_nonneg_right hBub hpnn
  have hexp : (2*(mds0 : ℚ) + 2*((mds0 : ℚ) * pow2 (-53))) * pow2 (-53)
      = 2*((mds0 : ℚ) * pow2 (-53)) + 2*(((mds0 : ℚ) * pow2 (-53)) * pow2 (-53)) := by
    ring
  have hfinal : fl (2 * fl (mds0 : ℚ)) < 2*(mds0 : ℚ) + 1 := by
    rw [hexp] at hscaled
    linarith
  have hmin : min (fl (ab : ℚ)) (fl (2 * fl (mds0 : ℚ))) ≤ fl (2 * fl (mds0 : ℚ)) :=
    min_le_right _ _
  rw [show qmul 2 (fl (mds0 : ℚ)) = 2 * fl (mds0 : ℚ) from qmul_eq _ _]
  apply truncF_lt_nat
  have hcast2 : ((2 * mds0 : ℕ) : ℚ) = 2 * (mds0 : ℚ) := by push_cast; ring
  rw [hcast2]
  exact lt_of_le_of_lt hmin hfinal

theorem cubicLoss_le (cub : Cubic) (cw : ℕ) :
    (cub.CongestionWindowAfterPacketLoss cw).2 ≤ cw := by
  show truncF (qmul Cubic.beta (cw : ℚ)) ≤ cw
  rw [qmul_eq]
  apply truncF_le_nat
  have h1 : Cubic.beta ≤ 1 := by
    rw [show (1:ℚ) = mkRat 1 1 by rw [mkRat_div]; norm_num]
    decide
  have h2 : Cubic.beta * (cw : ℚ) ≤ 1 * (cw : ℚ) :=
    mul_le_mul_of_nonneg_right h1 (Nat.cast_nonneg cw)
  rw [one_mul] at h2
  exact h2

/-- CUBIC's per-ack return value and Reno-equivalent window never drop below
any bound the current window and the running estimate both satisfy. -/
theorem cubicAck_bounds (cub : Cubic) (mds0 ab cwnd : ℕ) (mr : ℤ) (t : ℚ)
    (hcw : 2 * mds0 ≤ cwnd)
    (hreno : cub.epoch = none ∨ (2 * mds0 : ℚ) ≤ cub.renoEq) :
    (2 * mds0 : ℚ) ≤ (cub.CongestionWindowAfterAck ab cwnd mr t).1.renoEq ∧
    2 * mds0 ≤ (cub.CongestionWindowAfterAck ab cwnd mr t).2 := by
  have hdelta : 0 ≤ qdiv (qmul Cubic.renoGain (ab : ℚ)) (cwnd : ℚ) := by
    rw [qdiv_eq, qmul_eq]
    apply div_nonneg
    · apply mul_nonneg
      · rw [Cubic.renoGain, mkRat_div]
        norm_num
      · exact Nat.cast_nonneg ab
    · exact Nat.cast_nonneg cwnd
  rw [Cubic.CongestionWindowAfterAck]
  dsimp only
  cases hep : cub.epoch with
  | none =>
    dsimp only
    have hR : (2 * mds0 : ℚ) ≤
        qadd ((cwnd : ℚ)) (qdiv (qmul Cubic.renoGain (ab : ℚ)) (cwnd : ℚ)) := by
      rw [qadd_eq]
      have hc : (2 * mds0 : ℚ) ≤ (cwnd : ℚ) := by exact_mod_cast hcw
      linarith
    exact ⟨hR, le_trans (le_truncF (2 * mds0) _ (by exact_mod_cast hR))
      (le_max_right _ _)⟩
  | some e =>
    dsimp only
    have hR0 : (2 * mds0 : ℚ) ≤ cub.renoEq := by
      rcases hreno with h | h
      · rw [h] at hep
        exact Option.noConfusion hep
      · exact h
    have hR : (2 * mds0 : ℚ) ≤
        qadd cub.renoEq (qdiv (qmul Cubic.renoGain (ab : ℚ)) (cwnd : ℚ)) := by
      rw [qadd_eq]
      linarith
    exact ⟨hR, le_trans (le_truncF (2 * mds0) _ (by exact_mod_cast hR))
      (le_max_right _ _)⟩

/-! Field preservation through the deduplicating trace hook. -/

theorem maybeTrace_mds (c : CubicSender) (new : CongestionState) :
    (c.maybeTraceStateChange new).1.maxDatagramSize = c.maxDatagramSize := by
  rw [maybeTrace_spec]
  split <;> rfl

theorem maybeTrace_icw (c : CubicSender) (new : CongestionState) :
    (c.maybeTraceStateChange new).1.initialCongestionWindow = c.initialCongestionWindow := by
  rw [maybeTrace_spec]
  split <;> rfl

theorem maybeTrace_cw (c : CubicSender) (new : CongestionState) :
    (c.maybeTraceStateChange new).1.congestionWindow = c.congestionWindow := by
  rw [maybeTrace_spec]
  split <;> rfl

theorem maybeTrace_pp (c : CubicSender) (new : CongestionState) :
    (c.maybeTraceStateChange new).1.hybridSlowStartpp = c.hybridSlowStartpp := by
  rw [maybeTrace_spec]
  split <;> rfl

theorem maybeTrace_cubic (c : CubicSender) (new : CongestionState) :
    (c.maybeTraceStateChange new).1.cubic = c.cubic := by
  rw [maybeTrace_spec]
  split <;> rfl

/-- The Sender invariant behind the amended C4: fixed datagram size and
recorded initial window, window between `2 × mds` and `10002 × mds`, the
HyStart++ detector stuck (claim C2), and CUBIC's Reno-equivalent window
(once seeded) at least the minimum window. -/
def C4Inv (mds0 : ℕ) (c : CubicSender) : Prop :=
  c.maxDatagramSize = mds0 ∧
  c.initialCongestionWindow = initialCongestionWindowPackets * mds0 ∧
  2 * mds0 ≤ c.congestionWindow ∧
  c.congestionWindow ≤ 10002 * mds0 ∧
  PPInv c.hybridSlowStartpp ∧
  (c.cubic.epoch = none ∨ (2 * mds0 : ℚ) ≤ c.cubic.renoEq)

theorem ppInv_onAcked (s : HybridSlowStartpp) (pn : ℤ) (hs : PPInv s) :
    PPInv (s.OnPacketAcked pn) := by
  rw [HybridSlowStartpp.OnPacketAcked]
  split <;> exact hs

theorem c4Inv_sent (mds0 : ℕ) (c : CubicSender) (hInv : C4Inv mds0 c)
    (t : ℚ) (pn : ℤ) (b : ℕ) (r : Bool) (srtt : ℤ) :
    C4Inv mds0 (c.OnPacketSent t pn b r srtt) := by
  obtain ⟨h1, h2, h3, h4, h5, h6⟩ := hInv
  rw [CubicSender.OnPacketSent]
  dsimp only
  split
  · exact ⟨h1, h2, h3, h4, h5, h6⟩
  · (repeat' split) <;> exact ⟨h1, h2, h3, h4, h5, h6⟩

theorem c4Inv_rto (mds0 : ℕ) (c : CubicSender) (hInv : C4Inv mds0 c) (b : Bool) :
    C4Inv mds0 (c.OnRetransmissionTimeout b) := by
  obtain ⟨h1, h2, h3, h4, h5, h6⟩ := hInv
  rw [CubicSender.OnRetransmissionTimeout]
  dsimp only
  split
  · exact ⟨h1, h2, h3, h4, h5, h6⟩
  · (repeat' split) <;>
      exact ⟨h1, h2,
        by try dsimp only
           rw [CubicSender.minCongestionWindow]
           try dsimp only
           rw [h1, minCongestionWindowPackets]
           omega,
        by try dsimp only
           rw [CubicSender.minCongestionWindow]
           try dsimp only
           rw [h1, minCongestionWindowPackets]
           omega,
        h5, Or.inl rfl⟩

theorem c4Inv_migrate (mds0 : ℕ) (c : CubicSender) (hInv : C4Inv mds0 c) :
    C4Inv mds0 c.OnConnectionMigration := by
  obtain ⟨h1, h2, h3, h4, h5, h6⟩ := hInv
  rw [CubicSender.OnConnectionMigration]
  try dsimp only
  (repeat' split) <;>
    exact ⟨h1, h2,
      by try dsimp only
         rw [h2, initialCongestionWindowPackets]
         omega,
      by try dsimp only
         rw [h2, initialCongestionWindowPackets]
         omega,
      h5, Or.inl rfl⟩

theorem c4Inv_maybeExit (mds0 : ℕ) (c : CubicSender) (hInv : C4Inv mds0 c)
    (l m : ℤ) (hl : 0 ≤ l) : C4Inv mds0 (c.MaybeExitSlowStart l m).1 := by
  obtain ⟨h1, h2, h3, h4, h5, h6⟩ := hInv
  rw [CubicSender.MaybeExitSlowStart]
  dsimp only
  split
  · split
    · exact ⟨h1, h2, h3, h4, h5, h6⟩
    · split
      · refine ⟨?_, ?_, ?_, ?_, ?_, ?_⟩
        · rw [maybeTrace_mds]; exact h1
        · rw [maybeTrace_icw]; exact h2
        · rw [maybeTrace_cw]; exact h3
        · rw [maybeTrace_cw]; exact h4
        · rw [maybeTrace_pp]; exact h5
        · rw [maybeTrace_cubic]; exact h6
      · exact ⟨h1, h2, h3, h4, h5, h6⟩
    · obtain ⟨hppInv, hppFalse⟩ :=
        shouldExit_preserves_inv c.hybridSlowStartpp h5 l m
          (c.GetCongestionWindow / c.maxDatagramSize) 1 hl
      split
      · rename_i hexit
        rw [hppFalse] at hexit
        exact Bool.noConfusion hexit
      · exact ⟨h1, h2, h3, h4, hppInv, h6⟩
  · exact ⟨h1, h2, h3, h4, h5, h6⟩

set_option maxHeartbeats 1000000 in
theorem c4Inv_maybeIncrease (mds0 : ℕ) (hm : 0 < mds0) (hsz : mds0 ≤ 2 ^ 50)
    (c : CubicSender) (hInv : C4Inv mds0 c) (ab pif : ℕ) (t : ℚ) (mr : ℤ) :
    C4Inv mds0 (c.maybeIncreaseCwnd ab pif t mr).1 := by
  obtain ⟨hss, hpp, cu, pa, sa, ca, lsp, lap, lcb, lces, cw, sst, nap, icw, imcw, mds,
    ls, tr⟩ := c
  obtain ⟨ppe, ppl, pps, ppc, ppr, ppn, ppi⟩ := hpp
  obtain ⟨h1, h2, h3, h4, h5, h6⟩ := hInv
  simp only at h1 h2 h3 h4
  subst h1
  subst h2
  obtain ⟨p1, p2, p3⟩ := h5
  simp only at p1 p2 p3
  subst p1
  subst p2
  subst p3
  have hg : truncF (min (fl (ab : ℚ)) (fl (qmul 2 (fl (mds : ℚ))))) ≤ 2 * mds :=
    abcGrowth_le ab mds hm hsz
  obtain ⟨hackR, hackW⟩ := cubicAck_bounds cu mds ab cw mr t h3 h6
  rw [CubicSender.maybeIncreaseCwnd]
  dsimp only [CubicSender.maybeTraceStateChange, CubicSender.InLowSlowStart,
    CubicSender.GetCongestionWindow, CubicSender.maxCongestionWindow,
    MaxCongestionWindowPackets, HybridSlowStartpp.IsInLSS,
    HybridSlowStartpp.UpdateCwndHystartppSlowStart, MinByteCount]
  simp only [Bool.and_false, Bool.false_eq_true, if_false]
  (repeat' split) <;>
    (unfold C4Inv;
      (try dsimp only at *);
      first
        | exact ⟨rfl, rfl, by omega, by omega, ⟨rfl, rfl, rfl⟩, h6⟩
        | exact ⟨rfl, rfl, by omega, by omega, ⟨rfl, rfl, rfl⟩, Or.inl rfl⟩
        | exact ⟨rfl, rfl, by omega, by omega, ⟨rfl, rfl, rfl⟩, Or.inr hackR⟩)

theorem c4Inv_acked (mds0 : ℕ) (hm : 0 < mds0) (hsz : mds0 ≤ 2 ^ 50)
    (c : CubicSender) (hInv : C4Inv mds0 c) (pn : ℤ) (ab pif : ℕ) (t : ℚ) (mr : ℤ) :
    C4Inv mds0 (c.OnPacketAcked pn ab pif t mr).1 := by
  obtain ⟨h1, h2, h3, h4, h5, h6⟩ := hInv
  rw [CubicSender.OnPacketAcked]
  dsimp only
  split
  · exact ⟨h1, h2, h3, h4, h5, h6⟩
  · have hInv1 : C4Inv mds0
        { c with largestAckedPacketNumber := max pn c.largestAckedPacketNumber } :=
      ⟨h1, h2, h3, h4, h5, h6⟩
    obtain ⟨g1, g2, g3, g4, g5, g6⟩ :=
      c4Inv_maybeIncrease mds0 hm hsz _ hInv1 ab pif t mr
    split
    · split
      · exact ⟨g1, g2, g3, g4, g5, g6⟩
      · exact ⟨g1, g2, g3, g4, g5, g6⟩
      · exact ⟨g1, g2, g3, g4, ppInv_onAcked _ pn g5, g6⟩
    · exact ⟨g1, g2, g3, g4, g5, g6⟩

set_option maxHeartbeats 1000000 in
theorem c4Inv_lost (mds0 : ℕ) (hm : 0 < mds0) (hsz : mds0 ≤ 2 ^ 50)
    (c : CubicSender) (hInv : C4Inv mds0 c) (pn : ℤ) (lb pif : ℕ) :
    C4Inv mds0 (c.OnPacketLost pn lb pif).1 := by
  obtain ⟨hss, hpp, cu, pa, sa, ca, lsp, lap, lcb, lces, cw, sst, nap, icw, imcw, mds,
    ls, tr⟩ := c
  obtain ⟨ppe, ppl, pps, ppc, ppr, ppn, ppi⟩ := hpp
  obtain ⟨h1, h2, h3, h4, h5, h6⟩ := hInv
  simp only at h1 h2 h3 h4
  subst h1
  subst h2
  obtain ⟨p1, p2, p3⟩ := h5
  simp only at p1 p2 p3
  subst p1
  subst p2
  subst p3
  have hcw2 : 2 ≤ cw := by omega
  have hcwhi : (cw : ℚ) < pow2 1074 :=
    cast_lt_pow2_1074 cw
      (le_trans (le_trans h4 (Nat.mul_le_mul_left 10002 hsz)) (by norm_num))
  have hcut := renoCut_le cw hcw2 hcwhi
  have hcubE : (Cubic.CongestionWindowAfterPacketLoss cu cw).1.epoch = none := rfl
  have hcubW : (Cubic.CongestionWindowAfterPacketLoss cu cw).2 ≤ cw := cubicLoss_le cu cw
  rw [CubicSender.OnPacketLost]
  dsimp only [CubicSender.InLowSlowStart, HybridSlowStartpp.IsInLSS,
    CubicSender.maybeTraceStateChange, CubicSender.minCongestionWindow,
    minCongestionWindowPackets]
  simp only [Bool.and_false, Bool.false_eq_true, if_false]
  (repeat' split) <;>
    (unfold C4Inv;
      (try dsimp only at *);
      first
        | exact ⟨rfl, rfl, by omega, by omega, ⟨rfl, rfl, rfl⟩, h6⟩
        | exact ⟨rfl, rfl, by omega, by omega, ⟨rfl, rfl, rfl⟩, Or.inl hcubE⟩)

/-- Events C4's amended invariant covers: anything except a datagram-size
change, with nonnegative RTT readings at slow-start exit checks. -/
def opOK : Op → Bool
  | Op.maybeExit l _ => decide (0 ≤ l)
  | Op.setMDS _ => false
  | _ => true

theorem c4Run (mds0 : ℕ) (hm : 0 < mds0) (hsz : mds0 ≤ 2 ^ 50) :
    ∀ (ops : List Op) (c : CubicSender), (∀ op ∈ ops, opOK op = true) →
      C4Inv mds0 c → C4Inv mds0 (runOps ops c).1 := by
  intro ops
  induction ops with
  | nil =>
    intro c _ hInv
    exact hInv
  | cons op rest ih =>
    intro c hops hInv
    have hop : opOK op = true := hops op (List.mem_cons_self op rest)
    have hrest : ∀ o ∈ rest, opOK o = true :=
      fun o ho => hops o (List.mem_cons_of_mem op ho)
    rw [runOps]
    cases op with
    | sent t pn b r srtt =>
      dsimp only [step]
      exact ih _ hrest (c4Inv_sent mds0 c hInv t pn b r srtt)
    | acked pn ab pif t mr =>
      dsimp only [step]
      exact ih _ hrest (c4Inv_acked mds0 hm hsz c hInv pn ab pif t mr)
    | lost pn lb pif =>
      dsimp only [step]
      exact ih _ hrest (c4Inv_lost mds0 hm hsz c hInv pn lb pif)
    | rto b =>
      dsimp only [step]
      exact ih _ hrest (c4Inv_rto mds0 c hInv b)
    | migrate =>
      dsimp only [step]
      exact ih _ hrest (c4Inv_migrate mds0 c hInv)
    | maybeExit l m =>
      simp only [opOK] at hop
      have hl : (0:ℤ) ≤ l := of_decide_eq_true hop
      dsimp only [step]
      exact ih _ hrest (c4Inv_maybeExit mds0 c hInv l m hl)
    | setMDS s => simp [opOK] at hop

/-- C4 (amended): for every algorithm selection and every event sequence
without `set_max_datagram_size` (and with nonnegative RTT readings at exit
checks), the window of a Sender built with datagram size `mds` stays between
`min_cwnd = 2 × mds` and `max_cwnd + 2 × mds = 10002 × mds` — the cap is
checked before growth, which can then add up to two datagrams — and the
datagram size itself never changes.  The claim's unamended invariant fails
under `set_max_datagram_size`: see the counterexample. -/
theorem c4_cwnd_bounds (sa : StartAlgo) (ca : CongestionAlgo) (mds0 : ℕ)
    (tracerOn : Bool) (ops : List Op) (hm : 0 < mds0) (hsz : mds0 ≤ 2 ^ 50)
    (hops : ∀ op ∈ ops, opOK op = true) :
    2 * mds0 ≤ (runOps ops (NewCubicSender sa ca mds0 tracerOn).1).1.congestionWindow ∧
    (runOps ops (NewCubicSender sa ca mds0 tracerOn).1).1.congestionWindow
      ≤ 10002 * mds0 ∧
    (runOps ops (NewCubicSender sa ca mds0 tracerOn).1).1.maxDatagramSize = mds0 := by
  have h0 : C4Inv mds0 (NewCubicSender sa ca mds0 tracerOn).1 := by
    refine ⟨rfl, rfl, ?_, ?_, ⟨rfl, rfl, rfl⟩, Or.inl rfl⟩
    · show 2 * mds0 ≤ initialCongestionWindowPackets * mds0
      simp only [initialCongestionWindowPackets]
      omega
    · show initialCongestionWindowPackets * mds0 ≤ 10002 * mds0
      simp only [initialCongestionWindowPackets]
      omega
  obtain ⟨g1, g2, g3, g4, g5, g6⟩ :=
    c4Run mds0 hm hsz ops (NewCubicSender sa ca mds0 tracerOn).1 hops h0
  exact ⟨g3, g4, g1⟩

/-- Events for the C4 witness: a send, an ack that grows the window, an
exit check and a loss, under HyStart++ with CUBIC. -/
def c4WitnessOps : List Op :=
  [Op.sent 0 1 1200 true 0, Op.acked 1 1200 50000 0 0,
   Op.maybeExit 50000000 0, Op.lost 2 0 0]

theorem c4_cwnd_bounds_witness :
    (0 < 1200 ∧ 1200 ≤ 2 ^ 50 ∧ ∀ op ∈ c4WitnessOps, opOK op = true) ∧
    (2 * 1200 ≤ (runOps c4WitnessOps (NewCubicSender StartAlgo.chooseHystartpp
        CongestionAlgo.chooseCubic 1200 true).1).1.congestionWindow ∧
     (runOps c4WitnessOps (NewCubicSender StartAlgo.chooseHystartpp
        CongestionAlgo.chooseCubic 1200 true).1).1.congestionWindow ≤ 10002 * 1200 ∧
     (runOps c4WitnessOps (NewCubicSender StartAlgo.chooseHystartpp
        CongestionAlgo.chooseCubic 1200 true).1).1.maxDatagramSize = 1200) :=
  ⟨⟨by decide, by decide, by decide⟩,
    c4_cwnd_bounds StartAlgo.chooseHystartpp CongestionAlgo.chooseCubic 1200 true
      c4WitnessOps (by decide) (by decide) (by decide)⟩

end QuicGo
